import Mathlib

/-!
Verification development for the alphaweaver client-side agent.

This file gives a shallow embedding, in Lean 4, of the parts of the Go
client that the specification's claims are about:

* the walk-forward (WFO/WFM/DWFM) job expansion (`processWFOJob`,
  `calculateWFORuns`, `DateRange.GetEndDate` from `api.go`),
* the multi-symbol (MM) expansion (`processMMJob` from `api.go`),
* the adaptive polling scheduler (`CalculateOptimalInterval`,
  `calculateAdaptiveInterval` from `polling.go`, configuration defaults
  from `config.go`),
* the second-pass (WFO_RETEST) descriptor generator
  (`buildWFORetestXML`, `createWFORetestJobElement`,
  `transformParametersToFixed` from `wfo_retest_integration.go`,
  `calculateWFORetestDateRanges` from `wfo_retest_buffer.go`),
* the parameter-optimization watcher tick (`processOptFiles` from
  `csv_uploader.go`, `MoveOptFile` from `downloader.go`), and
* the OPT-table parser's task-type gate (`parseCSVContent` from
  `csv_uploader.go`).

Modelling conventions:

* A descriptor document (one `<Job>...</Job>` element) is represented
  structurally as its ordered list of scalar tags plus its list of
  parameter blocks; the Go tag-level substring edits (`replaceXMLTag`,
  `removeXMLTag`, `addXMLTag`, `extractXMLTagValue`) are translated at
  that tag level (first occurrence, absence behaviour, trimming all as
  in the source).  A `<root>`-wrapped multi-job output is represented as
  the list of its job documents; its count of `<Job>` opening tags is
  the length of that list.
* Go `float64` arithmetic (the WFO day calculation, the 1.2 backoff
  multiplier, the 0.25 percent buffer) is modelled by exact rational
  arithmetic on integer fractions, with Go's `int(...)` conversion
  modelled as truncation toward zero.  On the concrete inputs used by
  the witness and counterexample theorems below every intermediate
  value is exactly representable in binary64, so the rational model
  and the IEEE evaluation coincide there.
* Dates are days since 1970-01-01 (civil-calendar conversion in both
  directions); `parseDate`/`formatDate` mirror Go's
  `time.Parse("2006-01-02", _)` / `Format`.
* Network, filesystem and JSON-decoding boundaries are abstracted as
  explicit inputs (an upload outcome oracle, a backlog count, a decoded
  parameter map), so that the file-moving and generation logic itself
  is translated from the source.
-/

/-- Go integer division (also `int(float)` truncation): round toward zero. -/
def tdivInt (a b : Int) : Int := Int.tdiv a b

/-- Exact fraction, modelling the Go `float64` values of the client.
The denominator is kept positive by construction. -/
structure Frac where
  num : Int
  den : Int
  deriving DecidableEq, Repr

/-- Embed an integer as a fraction. -/
def Frac.ofInt (n : Int) : Frac := ⟨n, 1⟩

/-- Fraction multiplication. -/
def Frac.mul (a b : Frac) : Frac := ⟨a.num * b.num, a.den * b.den⟩

/-- Fraction subtraction. -/
def Frac.sub (a b : Frac) : Frac := ⟨a.num * b.den - b.num * a.den, a.den * b.den⟩

/-- Fraction addition. -/
def Frac.add (a b : Frac) : Frac := ⟨a.num * b.den + b.num * a.den, a.den * b.den⟩

/-- Fraction division, keeping the denominator positive; division by zero
gives 0 (never exercised by the theorems below, which either supply a
nonzero-denominator hypothesis or concrete inputs). -/
def Frac.div (a b : Frac) : Frac :=
  if b.num = 0 then ⟨0, 1⟩
  else if 0 < b.num then ⟨a.num * b.den, a.den * b.num⟩
  else ⟨-(a.num * b.den), a.den * (-b.num)⟩

/-- Go `int(x)` on a float value: truncation toward zero. -/
def goTrunc (f : Frac) : Int := tdivInt f.num f.den

/-- ASCII digit test. -/
def isDigitChar (c : Char) : Bool := decide ('0' ≤ c ∧ c ≤ '9')

/-- Numeric value of an ASCII digit. -/
def digitVal (c : Char) : Nat := c.toNat - 48

/-- Leap-year rule of the proleptic Gregorian calendar (as in Go's
`time` package). -/
def isLeapYear (y : Int) : Bool := y % 4 = 0 ∧ (y % 100 ≠ 0 ∨ y % 400 = 0)

/-- Length of a month, used by date validation. -/
def daysInMonth (y : Int) (m : Nat) : Nat :=
  if m = 2 then (if isLeapYear y then 29 else 28)
  else if m = 4 ∨ m = 6 ∨ m = 9 ∨ m = 11 then 30
  else 31

/-- Civil date to days since 1970-01-01 (standard era-based algorithm,
with C-style truncating division exactly as a Go/C implementation). -/
def civilToDays (y : Int) (m d : Int) : Int :=
  let ya := y - (if m ≤ 2 then 1 else 0)
  let era := tdivInt (if 0 ≤ ya then ya else ya - 399) 400
  let yoe := ya - era * 400
  let mp := m + (if 2 < m then -3 else 9)
  let doy := tdivInt (153 * mp + 2) 5 + d - 1
  let doe := yoe * 365 + tdivInt yoe 4 - tdivInt yoe 100 + doy
  era * 146097 + doe - 719468

/-- Days since 1970-01-01 back to a civil date (year, month, day). -/
def daysToCivil (z : Int) : Int × Int × Int :=
  let z := z + 719468
  let era := tdivInt (if 0 ≤ z then z else z - 146096) 146097
  let doe := z - era * 146097
  let yoe := tdivInt (doe - tdivInt doe 1460 + tdivInt doe 36524 - tdivInt doe 146096) 365
  let y := yoe + era * 400
  let doy := doe - (365 * yoe + tdivInt yoe 4 - tdivInt yoe 100)
  let mp := tdivInt (5 * doy + 2) 153
  let d := doy - tdivInt (153 * mp + 2) 5 + 1
  let m := mp + (if mp < 10 then 3 else -9)
  (y + (if m ≤ 2 then 1 else 0), m, d)

/-- parseDate from `api.go`: Go `time.Parse("2006-01-02", s)`, i.e. a
strict `YYYY-MM-DD` parse with month/day range validation, returned as
days since epoch. -/
def parseDate (s : String) : Option Int :=
  match s.toList with
  | [y1, y2, y3, y4, '-', m1, m2, '-', d1, d2] =>
    if ([y1, y2, y3, y4, m1, m2, d1, d2].all isDigitChar) then
      let y : Nat := ((digitVal y1 * 10 + digitVal y2) * 10 + digitVal y3) * 10 + digitVal y4
      let m : Nat := digitVal m1 * 10 + digitVal m2
      let d : Nat := digitVal d1 * 10 + digitVal d2
      if 1 ≤ m ∧ m ≤ 12 ∧ 1 ≤ d ∧ d ≤ daysInMonth (y : Int) m then
        some (civilToDays (y : Int) (m : Int) (d : Int))
      else none
    else none
  | _ => none

/-- Left-pad a natural number with zeros to a minimum width. -/
def padNum (w : Nat) (n : Nat) : String :=
  let s := toString n
  String.mk (List.replicate (w - s.length) '0') ++ s

/-- formatDate from `api.go`: Go `t.Format("2006-01-02")`. -/
def formatDate (z : Int) : String :=
  let c := daysToCivil z
  let ys := if c.1 < 0 then "-" ++ padNum 4 (-c.1).toNat else padNum 4 c.1.toNat
  ys ++ "-" ++ padNum 2 c.2.1.toNat ++ "-" ++ padNum 2 c.2.2.toNat

/-- Shift a `YYYY-MM-DD` date string by a number of calendar days
(Go `parseDate` then `AddDate(0, 0, n)` then `formatDate`). -/
def shiftDateStr (s : String) (n : Int) : Option String :=
  (parseDate s).map (fun d => formatDate (d + n))

/-- ASCII space characters trimmed by Go `strings.TrimSpace` (the
Unicode cases do not occur in the tag values handled here). -/
def isSpaceChar (c : Char) : Bool := c = ' ' ∨ c = '\t' ∨ c = '\n' ∨ c = '\r'

/-- Go `strings.TrimSpace`. -/
def goTrimSpace (s : String) : String :=
  String.mk (((s.toList.dropWhile isSpaceChar).reverse.dropWhile isSpaceChar).reverse)

/-- Splitting helper for Go `strings.Split(s, ",")`. -/
def splitCommaAux : List Char → List Char → List (List Char)
  | [], acc => [acc.reverse]
  | c :: rest, acc =>
    if c = ',' then acc.reverse :: splitCommaAux rest [] else splitCommaAux rest (c :: acc)

/-- Go `strings.Split(s, ",")`. -/
def goSplitComma (s : String) : List String :=
  (splitCommaAux s.toList []).map String.mk

/-- Digits-to-number helper for the numeric parsers. -/
def digitsToNat : List Char → Nat → Option Nat
  | [], acc => some acc
  | c :: rest, acc =>
    if isDigitChar c then digitsToNat rest (acc * 10 + digitVal c) else none

/-- Go `strconv.Atoi`: optional sign, one or more digits (the 64-bit
overflow bound is not modelled; all inputs considered here are small). -/
def goAtoi (s : String) : Option Int :=
  match s.toList with
  | [] => none
  | '-' :: rest =>
    match rest with
    | [] => none
    | _ => (digitsToNat rest 0).map (fun n => -(n : Int))
  | '+' :: rest =>
    match rest with
    | [] => none
    | _ => (digitsToNat rest 0).map (fun n => (n : Int))
  | l => (digitsToNat l 0).map (fun n => (n : Int))

/-- Fraction value of an unsigned decimal literal `intPart[.fracPart]`. -/
def decimalToFrac (intPart : List Char) (fracPart : List Char) : Option Frac :=
  match digitsToNat intPart 0 with
  | none => none
  | some ip =>
    match digitsToNat fracPart 0 with
    | none => none
    | some fp => some ⟨(ip : Int) * (10 ^ fracPart.length : Nat) + (fp : Int), ((10 : Nat) ^ fracPart.length : Nat)⟩

/-- Go `strconv.ParseFloat` restricted to plain decimal literals
(optional sign, digits, optional fractional part) — the shape of every
`oos_percent` value the client handles; exponent and hexadecimal float
syntax are not modelled. -/
def parseGoFloat (s : String) : Option Frac :=
  let core : List Char → Option Frac := fun l =>
    match l.splitOn '.' with
    | [ip] => if ip = [] then none else decimalToFrac ip []
    | [ip, fp] => if ip = [] ∧ fp = [] then none else decimalToFrac ip fp
    | _ => none
  match s.toList with
  | [] => none
  | '-' :: rest => (core rest).map (fun f => ⟨-f.num, f.den⟩)
  | '+' :: rest => core rest
  | l => core l

/-- ASCII lower-casing, modelling Go `strings.ToLower`/`EqualFold` on
the ASCII column names and type names compared by the client. -/
def asciiLower (c : Char) : Char :=
  if 'A' ≤ c ∧ c ≤ 'Z' then Char.ofNat (c.toNat + 32) else c

/-- Lower-case a string (ASCII). -/
def lowerStr (s : String) : String := String.mk (s.toList.map asciiLower)

/-- Go `strings.EqualFold` (ASCII fragment). -/
def eqFold (a b : String) : Bool := lowerStr a = lowerStr b

/-- One parameter block `<name>...</name>` inside the `<parameters>`
section of a job element.  The children are the block's child tags in
document order with trimmed values; the Go XML decoder in
`transformParametersToFixed` collects them into a map in which a later
child overwrites an earlier one of the same name, so lookups take the
last occurrence. -/
structure ParamBlock where
  name : String
  children : List (String × String)
  deriving DecidableEq, Repr

/-- Go-map lookup into a parameter block's children: the last child of
a given name wins, and a missing child gives the zero value `""`. -/
def childVal (cs : List (String × String)) (k : String) : String :=
  match (cs.reverse.find? (fun p => p.1 = k)) with
  | some p => p.2
  | none => ""

/-- One `<Job>...</Job>` descriptor element, represented by its ordered
scalar tags and its `<parameters>` blocks.  A `<root>`-wrapped document
holding several job elements is a `List JobDoc`. -/
structure JobDoc where
  tags : List (String × String)
  params : List ParamBlock
  deriving DecidableEq, Repr

/-- replaceXMLTag on the tag list: the first tag of the given name has
its value replaced; if the tag is absent the list is unchanged
(`api.go` `replaceXMLTag`). -/
def replaceTags : List (String × String) → String → String → List (String × String)
  | [], _, _ => []
  | (n, v) :: rest, name, newV =>
    if n = name then (n, newV) :: rest else (n, v) :: replaceTags rest name newV

/-- removeXMLTag on the tag list: the first tag of the given name is
deleted; if absent the list is unchanged (`api.go` `removeXMLTag`). -/
def removeTags : List (String × String) → String → List (String × String)
  | [], _ => []
  | (n, v) :: rest, name =>
    if n = name then rest else (n, v) :: removeTags rest name

/-- Raw inner content of the first tag of the given name. -/
def findTagRaw (tags : List (String × String)) (name : String) : Option String :=
  (tags.find? (fun p => p.1 = name)).map (fun p => p.2)

/-- replaceXMLTag from `api.go`, lifted to the document model. -/
def replaceXMLTag (doc : JobDoc) (name newV : String) : JobDoc :=
  { doc with tags := replaceTags doc.tags name newV }

/-- removeXMLTag from `api.go`, lifted to the document model. -/
def removeXMLTag (doc : JobDoc) (name : String) : JobDoc :=
  { doc with tags := removeTags doc.tags name }

/-- addXMLTag from `api.go`: inserts the new tag immediately before the
closing `</Job>`, i.e. after all existing tags of the element. -/
def addXMLTag (doc : JobDoc) (name v : String) : JobDoc :=
  { doc with tags := doc.tags ++ [(name, v)] }

/-- extractXMLTagValue from `api.go`: trimmed inner content of the
first occurrence of the tag, or failure when absent. -/
def extractXMLTagValue (doc : JobDoc) (name : String) : Option String :=
  (findTagRaw doc.tags name).map goTrimSpace

/-- Does the document contain a tag of this name? -/
def hasTag (doc : JobDoc) (name : String) : Bool :=
  doc.tags.any (fun p => p.1 = name)

/-- Number of tags of the given name in the document. -/
def countTag (doc : JobDoc) (name : String) : Nat :=
  (doc.tags.filter (fun p => p.1 = name)).length

/-- DateRange from `api.go`: the date boundaries of one WFO run, as the
formatted strings the Go code stores. -/
structure DateRange where
  ISStartDate : String
  ISEndDate : String
  OSStartDate : String
  OSEndDate : String
  deriving DecidableEq, Repr

/-- GetEndDate from `api.go`: the OS end when the `OSEndDate` field is
non-empty, otherwise the IS end. -/
def DateRange.GetEndDate (dr : DateRange) : String :=
  if dr.OSEndDate ≠ "" then dr.OSEndDate else dr.ISEndDate

/-- OOS sample fraction `oosPercent / 100.0` from `calculateWFORuns`. -/
def oosSamplePct (p : Frac) : Frac := p.div (Frac.ofInt 100)

/-- IS sample fraction `1.0 - oosSamplePct`. -/
def isSamplePct (p : Frac) : Frac := (Frac.ofInt 1).sub (oosSamplePct p)

/-- `daysPerRun` from `calculateWFORuns`:
`totalDays / (runs * oosSamplePct + isSamplePct)`. -/
def wfoDaysPerRun (totalDays : Int) (runs : Int) (p : Frac) : Frac :=
  (Frac.ofInt totalDays).div (((Frac.ofInt runs).mul (oosSamplePct p)).add (isSamplePct p))

/-- `isDays := int(daysPerRun * isSamplePct)` from `calculateWFORuns`. -/
def wfoIsDays (totalDays : Int) (runs : Int) (p : Frac) : Int :=
  goTrunc ((wfoDaysPerRun totalDays runs p).mul (isSamplePct p))

/-- `osDays := int(daysPerRun * oosSamplePct)` from `calculateWFORuns`. -/
def wfoOsDays (totalDays : Int) (runs : Int) (p : Frac) : Int :=
  goTrunc ((wfoDaysPerRun totalDays runs p).mul (oosSamplePct p))

/-- Body of one iteration of the run loop of `calculateWFORuns`
(run index `r`, zero-based): computes the IS end, OS start and OS end
from the given IS start string, with the second-to-last run (index
`runs - 1`) taking the global end date as its OS end. -/
def wfoBody (endDate : String) (runs isDays osDays : Int) (r : Int)
    (isStartStr : String) : Option DateRange := do
  let isStart ← parseDate isStartStr
  let isEndStr := formatDate (isStart + isDays)
  let isEnd ← parseDate isEndStr
  let osStartStr := formatDate (isEnd + 1)
  let osEndStr := if r = runs - 1 then endDate else formatDate (isEnd + 1 + osDays)
  pure ⟨isStartStr, isEndStr, osStartStr, osEndStr⟩

/-- The run loop of `calculateWFORuns`: `count` remaining iterations,
current run index `r`, current IS start string.  A later run's IS start
is the previous run's OS end minus `isDays` days, which requires
re-parsing the stored OS end string exactly as the Go code does. -/
def wfoRunsLoop (endDate : String) (runs isDays osDays : Int) :
    Nat → Int → String → Option (List DateRange)
  | 0, _, _ => some []
  | Nat.succ iter, r, isStartStr => do
    let dr ← wfoBody endDate runs isDays osDays r isStartStr
    match iter with
    | 0 => pure [dr]
    | Nat.succ _ => do
      let prevOSEnd ← parseDate dr.OSEndDate
      let rest ← wfoRunsLoop endDate runs isDays osDays iter (r + 1)
        (formatDate (prevOSEnd - isDays))
      pure (dr :: rest)

/-- calculateWFORuns from `api.go`: parse the global dates, derive the
per-run IS/OS day counts, and emit `runs + 1` date ranges (the extra
final range feeds the IS-only last job element). -/
def calculateWFORuns (startDate endDate : String) (runs : Int) (oosPercent : Frac) :
    Option (List DateRange) := do
  let startTime ← parseDate startDate
  let endTime ← parseDate endDate
  let totalDays := endTime - startTime
  wfoRunsLoop endDate runs (wfoIsDays totalDays runs oosPercent)
    (wfoOsDays totalDays runs oosPercent) (runs + 1).toNat 0 (formatDate startTime)

/-- Per-run tag edits of `processWFOJob` for run number `runNumber` out
of `total` ranges: add the run number and IS dates, rewrite
`startDate`/`endDate`, and either mark the final extra run as IS-only
(`oos_percent` 0.0, no OS date tags) or add the OS dates and restore
the original `oos_percent`; finally drop `oos_runs`. -/
def mkWFORunJob (doc : JobDoc) (oosPercentStr : String) (total runNumber : Nat)
    (dr : DateRange) : JobDoc :=
  let j := addXMLTag doc "run" (toString runNumber)
  let j := replaceXMLTag j "startDate" dr.ISStartDate
  let j := replaceXMLTag j "endDate" dr.GetEndDate
  let j := addXMLTag j "is_start_date" dr.ISStartDate
  let j := addXMLTag j "is_end_date" dr.ISEndDate
  let j :=
    if runNumber = total then
      replaceXMLTag j "oos_percent" "0.0"
    else
      replaceXMLTag (addXMLTag (addXMLTag j "os_start_date" dr.OSStartDate)
        "os_end_date" dr.OSEndDate) "oos_percent" oosPercentStr
  removeXMLTag j "oos_runs"

/-- The `for i, dateRange := range dateRanges` loop of `processWFOJob`,
emitting one job element per date range with run number `i + 1`. -/
def buildWFOJobElements (doc : JobDoc) (oosPercentStr : String) (total : Nat) :
    Nat → List DateRange → List JobDoc
  | _, [] => []
  | i, dr :: rest =>
    mkWFORunJob doc oosPercentStr total (i + 1) dr ::
      buildWFOJobElements doc oosPercentStr total (i + 1) rest

/-- processWFOJob from `api.go`: extract and parse `oos_runs`,
`oos_percent`, `startDate`, `endDate`; any failure falls back to the
single-job wrap (the output document keeps the one input element);
otherwise calculate the run date ranges and emit one job element per
range inside the root wrapper. -/
def processWFOJob (doc : JobDoc) : List JobDoc :=
  match extractXMLTagValue doc "oos_runs" with
  | none => [doc]
  | some oosRuns =>
    match extractXMLTagValue doc "oos_percent" with
    | none => [doc]
    | some oosPercent =>
      match extractXMLTagValue doc "startDate" with
      | none => [doc]
      | some startDate =>
        match extractXMLTagValue doc "endDate" with
        | none => [doc]
        | some endDate =>
          match goAtoi oosRuns with
          | none => [doc]
          | some runs =>
            match parseGoFloat oosPercent with
            | none => [doc]
            | some oosPercentFloat =>
              match calculateWFORuns startDate endDate runs oosPercentFloat with
              | none => [doc]
              | some dateRanges =>
                buildWFOJobElements doc oosPercent dateRanges.length 0 dateRanges

/-- The symbol loop's skip of blank entries in `processMMJob`: trim
each raw comma-separated part and drop the empty ones. -/
def cleanSymbols (l : List String) : List String :=
  l.filterMap (fun s =>
    let t := goTrimSpace s
    if t = "" then none else some t)

/-- processMMJob from `api.go`: read the raw `<symbols>` value (no
trimming at extraction, exactly as the index-slicing in the source),
split it on commas; with one or fewer raw parts fall back to the
single-job wrap, otherwise emit, per trimmed non-empty symbol, a copy
with `Symbol` replaced and `symbols` removed. -/
def processMMJob (doc : JobDoc) : List JobDoc :=
  match findTagRaw doc.tags "symbols" with
  | none => [doc]
  | some symbolsValue =>
    let symbols := goSplitComma symbolsValue
    if symbols.length ≤ 1 then [doc]
    else
      (cleanSymbols symbols).map
        (fun s => removeXMLTag (replaceXMLTag doc "Symbol" s) "symbols")

/-- ExponentialBackoffConfig from `config.go`. -/
structure ExponentialBackoffConfig where
  enabled : Bool
  factor : Frac
  maxEmptyPolls : Int
  deriving DecidableEq, Repr

/-- PollConfig from `config.go` (the fields the scheduler reads).
Interval fields are in milliseconds as in the JSON configuration. -/
structure PollConfig where
  minIntervalMs : Int
  maxIntervalMs : Int
  remainingJobsThreshold : Int
  adaptive : Bool
  exponentialBackoff : ExponentialBackoffConfig
  deriving DecidableEq, Repr

/-- GetMinPollInterval from `config.go`: milliseconds to a duration in
nanoseconds. -/
def getMinPollInterval (cfg : PollConfig) : Int := cfg.minIntervalMs * 1000000

/-- GetMaxPollInterval from `config.go`. -/
def getMaxPollInterval (cfg : PollConfig) : Int := cfg.maxIntervalMs * 1000000

/-- The Poll section of DefaultConfig from `config.go`: 5-minute
minimum, 30-minute maximum, threshold 3, adaptive on, backoff factor
1.5 with max 3 empty polls. -/
def defaultPollConfig : PollConfig :=
  ⟨300000, 1800000, 3, true, ⟨true, ⟨3, 2⟩, 3⟩⟩

/-- calculateAdaptiveInterval from `polling.go`: hot cadence when jobs
are available and few remain; halve (clamped below) when jobs were
found; otherwise grow the interval by the literal constant 1.2
(clamped above).  `Duration(float64(interval) * 1.2)` is modelled as
exact multiplication truncated toward zero. -/
def calculateAdaptiveInterval (cfg : PollConfig) (currentInterval : Int)
    (hasJobs : Bool) (remaining : Int) : Int :=
  if hasJobs ∧ remaining ≤ cfg.remainingJobsThreshold then getMinPollInterval cfg
  else if hasJobs then
    let half := tdivInt currentInterval 2
    if half < getMinPollInterval cfg then getMinPollInterval cfg else half
  else
    let more := goTrunc ((Frac.ofInt currentInterval).mul ⟨12, 10⟩)
    if getMaxPollInterval cfg < more then getMaxPollInterval cfg else more

/-- CalculateOptimalInterval from `polling.go`.  The filesystem count
of `.job` files in `jobs/to_do` is abstracted as the input
`jobCountInToDo` (`none` models a read error, in which case the
suspension check is skipped, exactly as `err == nil` gates it in the
source).  Returns the chosen interval in nanoseconds, `0` being the
suspend sentinel. -/
def CalculateOptimalInterval (cfg : PollConfig) (currentInterval : Int)
    (consecutiveEmptyPolls : Int) (jobCountInToDo : Option Int)
    (hasJobs : Bool) (remaining : Int) : Int :=
  let suspended : Bool :=
    match jobCountInToDo with
    | some jc => decide (cfg.remainingJobsThreshold < jc)
    | none => false
  if suspended then 0
  else if hasJobs ∧ remaining ≤ cfg.remainingJobsThreshold then getMinPollInterval cfg
  else if 3 ≤ consecutiveEmptyPolls then getMaxPollInterval cfg
  else
    let interval :=
      if cfg.adaptive then calculateAdaptiveInterval cfg currentInterval hasJobs remaining
      else currentInterval
    let interval := if interval < getMinPollInterval cfg then getMinPollInterval cfg else interval
    if getMaxPollInterval cfg < interval then getMaxPollInterval cfg else interval

/-- OPTResult from `api.go`: one row of the decompressed
parameter-optimization table. -/
structure OPTResult where
  run : Int
  parametersJSON : String
  isStartDate : String
  isEndDate : String
  osStartDate : String
  osEndDate : String
  deriving DecidableEq, Repr

/-- DateBuffer from `wfo_retest_buffer.go`. -/
structure DateBuffer where
  originalStart : String
  originalEnd : String
  bufferedStart : String
  bufferedEnd : String
  bufferDays : Int
  deriving DecidableEq, Repr

/-- calculateDateBuffer from `wfo_retest_buffer.go`: a 0.25 percent
duration buffer, clamped to [1, 30] days, applied on both sides. -/
def calculateDateBuffer (startDate endDate : String) : Option DateBuffer := do
  let s ← parseDate startDate
  let e ← parseDate endDate
  let totalDays := e - s
  let bufferDays := goTrunc ((Frac.ofInt totalDays).mul ⟨25, 10000⟩)
  let bufferDays := if bufferDays < 1 then 1 else bufferDays
  let bufferDays := if 30 < bufferDays then 30 else bufferDays
  pure ⟨startDate, endDate, formatDate (s - bufferDays), formatDate (e + bufferDays), bufferDays⟩

/-- WFORetestDateRange from `wfo_retest_buffer.go`. -/
structure WFORetestDateRange where
  originalISStart : String
  originalISEnd : String
  originalOSStart : String
  originalOSEnd : String
  bufferedISStart : String
  bufferedISEnd : String
  bufferedOSStart : String
  bufferedOSEnd : String
  isBufferDays : Int
  osBufferDays : Int
  deriving DecidableEq, Repr

/-- calculateWFORetestDateRanges from `wfo_retest_buffer.go`: one range
per optimization row, preserving the original IS/OS dates and adding
the buffered dates (OS buffer only when both OS dates are present). -/
def calculateWFORetestDateRanges : List OPTResult → Option (List WFORetestDateRange)
  | [] => some []
  | result :: rest => do
    let isBuffer ← calculateDateBuffer result.isStartDate result.isEndDate
    let range : WFORetestDateRange :=
      ⟨result.isStartDate, result.isEndDate, result.osStartDate, result.osEndDate,
        isBuffer.bufferedStart, isBuffer.bufferedEnd, "", "", isBuffer.bufferDays, 0⟩
    let range ←
      if result.osStartDate ≠ "" ∧ result.osEndDate ≠ "" then do
        let osBuffer ← calculateDateBuffer result.osStartDate result.osEndDate
        pure { range with
          bufferedOSStart := osBuffer.bufferedStart,
          bufferedOSEnd := osBuffer.bufferedEnd,
          osBufferDays := osBuffer.bufferDays }
      else pure range
    let ranges ← calculateWFORetestDateRanges rest
    pure (range :: ranges)

/-- The `""` to `"` collapse of `replaceParametersWithFixed`
(`strings.ReplaceAll(parametersJSON, quotequote, quote)`), applied
left to right without overlap exactly as Go does for a two-character
pattern. -/
def collapseDoubleQuotes : List Char → List Char
  | '\"' :: '\"' :: rest => '\"' :: collapseDoubleQuotes rest
  | c :: rest => c :: collapseDoubleQuotes rest
  | [] => []

/-- The JSON cleanup of `replaceParametersWithFixed`: collapse doubled
quotes, then strip one pair of outer quotes if present. -/
def cleanParametersJSON (s : String) : String :=
  let l := collapseDoubleQuotes s.toList
  if 2 ≤ l.length ∧ l.headD ' ' = '\"' ∧ l.getLastD ' ' = '\"' then
    String.mk (l.drop 1 |>.dropLast)
  else String.mk l

/-- Rendering of one parameter block by `transformParametersToFixed`:
an optimizable `OptRange` block becomes a fixed block (type chosen by
`data_type`, case-insensitively; value taken from the optimized map
when present) with `optimizable_ind` false; any other block is
re-rendered with its non-empty core fields. -/
def renderParamBlock (optimizedValues : List (String × String)) (p : ParamBlock) :
    ParamBlock :=
  let paramType := childVal p.children "param_type"
  let dataType := childVal p.children "data_type"
  let optimizable := eqFold (childVal p.children "optimizable_ind") "true"
  let value := childVal p.children "value"
  if paramType = "OptRange" ∧ optimizable then
    let value :=
      match optimizedValues.find? (fun q => q.1 = p.name) with
      | some q => q.2
      | none => value
    let fixedType :=
      if eqFold dataType "string" then "FixedString"
      else if eqFold dataType "bool" ∨ eqFold dataType "boolean" then "FixedBool"
      else "Fixed"
    ⟨p.name,
      [("value", value), ("param_type", fixedType)] ++
        (if dataType ≠ "" then [("data_type", dataType)] else []) ++
        [("optimizable_ind", "false")]⟩
  else
    ⟨p.name,
      (if childVal p.children "value" ≠ "" then [("value", childVal p.children "value")] else []) ++
        (if childVal p.children "param_type" ≠ "" then
          [("param_type", childVal p.children "param_type")] else []) ++
        (if childVal p.children "data_type" ≠ "" then
          [("data_type", childVal p.children "data_type")] else []) ++
        (if childVal p.children "optimizable_ind" ≠ "" then
          [("optimizable_ind", childVal p.children "optimizable_ind")] else [])⟩

/-- transformParametersToFixed from `wfo_retest_integration.go`: every
block of the original `<parameters>` section is re-rendered in order. -/
def transformParametersToFixed (blocks : List ParamBlock)
    (optimizedValues : List (String × String)) : List ParamBlock :=
  blocks.map (renderParamBlock optimizedValues)

/-- createWFORetestJobElement from `wfo_retest_integration.go`:
starting from the template job element, set `task_type` to
`WFO_RETEST`, set `filename` to the second-pass name, keep `run`,
`startDate` and `endDate` untouched, and replace the parameter section
with fixed parameters.  The `encoding/json` decoding of the row's
`parameters_json` is abstracted as the `jsonParse` argument applied to
the cleaned string; its failure aborts the element exactly as the Go
`json.Unmarshal` error does. -/
def createWFORetestJobElement (jsonParse : String → Option (List (String × String)))
    (tmpl : JobDoc) (result : OPTResult) (wfoRetestFilename : String) : Option JobDoc := do
  let j := replaceXMLTag tmpl "task_type" "WFO_RETEST"
  let j := replaceXMLTag j "filename" wfoRetestFilename
  let optimizedParams ← jsonParse (cleanParametersJSON result.parametersJSON)
  pure { j with params := transformParametersToFixed j.params optimizedParams }

/-- Element loop of `buildWFORetestXML` over run indices `0 ≤ i < limit`. -/
def buildWFORetestElements (jsonParse : String → Option (List (String × String)))
    (origJobs : List JobDoc) (optResults : List OPTResult)
    (wfoRetestFilename : String) : Nat → Option (List JobDoc)
  | 0 => some []
  | Nat.succ n => do
    let rest ← buildWFORetestElements jsonParse origJobs optResults wfoRetestFilename n
    let jobXML ← createWFORetestJobElement jsonParse
      (origJobs.getD n ⟨[], []⟩) (optResults.getD n ⟨0, "", "", "", "", ""⟩) wfoRetestFilename
    pure (rest ++ [jobXML])

/-- buildWFORetestXML from `wfo_retest_integration.go`: use the
original descriptor's job elements as templates, one per optimization
row in order, up to the least of the row count, the template count and
the retest range count; fail when the original has no job elements or
the limit is zero.  All runs share the one second-pass filename the
caller computed. -/
def buildWFORetestXML (jsonParse : String → Option (List (String × String)))
    (origJobs : List JobDoc) (optResults : List OPTResult)
    (retestRanges : List WFORetestDateRange) (wfoRetestFilename : String) :
    Option (List JobDoc) :=
  if origJobs.length = 0 then none
  else
    let limit := min optResults.length (min origJobs.length retestRanges.length)
    if limit = 0 then none
    else buildWFORetestElements jsonParse origJobs optResults wfoRetestFilename limit

/-- The concrete fragment of `encoding/json` object decoding used by
the counterexample below: the empty JSON object decodes to the empty
map; everything else is out of this fragment's scope. -/
def jsonEmptyObjOnly (s : String) : Option (List (String × String)) :=
  if s = "\x7b\x7d" then some [] else none

/-- Go `filepath.Ext`: the suffix beginning at the final dot of the
final path element, or the empty string. -/
def filepathExt (s : String) : String :=
  let rev := s.toList.reverse
  match rev.takeWhile (fun c => c ≠ '.' ∧ c ≠ '/' ∧ c ≠ '\\') , rev.drop (rev.takeWhile (fun c => c ≠ '.' ∧ c ≠ '/' ∧ c ≠ '\\')).length with
  | pre, '.' :: _ => String.mk ('.' :: pre.reverse)
  | _, _ => ""

/-- The three folders the parameter-optimization watcher touches
(`opt/in`, `opt/done`, `opt/error`), each as its list of file names. -/
structure OptFolders where
  inFolder : List String
  doneFolder : List String
  errFolder : List String
  deriving DecidableEq, Repr

/-- GetOptFiles from `downloader.go`: the `.opt` entries of `opt/in`. -/
def getOptFiles (st : OptFolders) : List String :=
  st.inFolder.filter (fun f => filepathExt f = ".opt")

/-- MoveOptFile from `downloader.go`: rename a file from `opt/in` to
`opt/done` (the only move this watcher performs). -/
def moveOptFile (f : String) (st : OptFolders) : OptFolders :=
  { st with inFolder := st.inFolder.erase f, doneFolder := st.doneFolder ++ [f] }

/-- Per-file step of `processOptFiles` in `csv_uploader.go`: a failed
`uploadOptFile` is logged and the loop continues (no move at all); a
successful upload is followed by `MoveOptFile` into `opt/done`.  The
network/metadata outcome of `uploadOptFile` is abstracted as the
`uploadOk` oracle; the WFO second-pass trigger and the delayed summary
scan inside a successful upload never move the `.opt` file. -/
def processOptFilesStep (uploadOk : String → Bool) (st : OptFolders) (f : String) :
    OptFolders :=
  if uploadOk f then moveOptFile f st else st

/-- Loop of `processOptFiles` over the snapshot of `.opt` files. -/
def processOptFilesLoop (uploadOk : String → Bool) : OptFolders → List String → OptFolders
  | st, [] => st
  | st, f :: rest => processOptFilesLoop uploadOk (processOptFilesStep uploadOk st f) rest

/-- processOptFiles from `csv_uploader.go`: one watcher tick over the
`.opt` files currently in `opt/in`. -/
def processOptFiles (uploadOk : String → Bool) (st : OptFolders) : OptFolders :=
  processOptFilesLoop uploadOk st (getOptFiles st)

/-- Index of the last header column satisfying a predicate (the header
scan of `parseCSVContent` assigns the index on every match, so the last
match wins). -/
def lastIdxWhere (p : String → Bool) (l : List String) : Option Nat :=
  ((l.enum.filter (fun q => p q.2)).getLast?).map (fun q => q.1)

/-- Normalisation applied to a header cell by `parseCSVContent`:
`strings.ToLower(strings.TrimSpace(col))`. -/
def headerNorm (s : String) : String := lowerStr (goTrimSpace s)

/-- Row parse of `parseCSVContent`: skip a record that is too short for
the run or parameters column, whose run cell is not an integer, or
whose trimmed parameters cell is empty; otherwise build the
`OPTResult`, reading each date column only when its index was found
and is in range. -/
def parseOptRow (runIndex parametersJSONIndex : Nat)
    (isStartIndex isEndIndex osStartIndex osEndIndex : Option Nat)
    (record : List String) : Option OPTResult :=
  if record.length ≤ runIndex ∨ record.length ≤ parametersJSONIndex then none
  else
    match goAtoi (goTrimSpace (record.getD runIndex "")) with
    | none => none
    | some run =>
      let parametersJSON := goTrimSpace (record.getD parametersJSONIndex "")
      if parametersJSON = "" then none
      else
        let dateAt : Option Nat → String := fun idx =>
          match idx with
          | some i => if i < record.length then goTrimSpace (record.getD i "") else ""
          | none => ""
        some ⟨run, parametersJSON, dateAt isStartIndex, dateAt isEndIndex,
          dateAt osStartIndex, dateAt osEndIndex⟩

/-- parseCSVContent from `csv_uploader.go`, starting from the records
produced by the JSON-aware line splitter (that splitter is the parsing
boundary of this model).  The task-type gate at the top rejects any
job whose cloud task type is not literally `WFO` or `WFM` before the
table is even inspected; then the header is scanned for the run and
parameters columns (last match wins) and the data rows are parsed.
Returns the extracted rows and the is-walk-forward verdict. -/
def parseCSVContent (records : List (List String)) (jobTaskType : String) :
    List OPTResult × Bool :=
  if jobTaskType ≠ "WFO" ∧ jobTaskType ≠ "WFM" then ([], false)
  else if records.length < 2 then ([], false)
  else
    let header := records.headD []
    let runIndex := lastIdxWhere (fun c => headerNorm c = "run" ∨ headerNorm c = "run_number") header
    let parametersJSONIndex := lastIdxWhere
      (fun c => headerNorm c = "parameters_json" ∨ headerNorm c = "parameters json") header
    let isStartIndex := lastIdxWhere (fun c => headerNorm c = "is_start_date") header
    let isEndIndex := lastIdxWhere (fun c => headerNorm c = "is_end_date") header
    let osStartIndex := lastIdxWhere (fun c => headerNorm c = "os_start_date") header
    let osEndIndex := lastIdxWhere (fun c => headerNorm c = "os_end_date") header
    match runIndex, parametersJSONIndex with
    | some ri, some pi =>
      let optResults := (records.drop 1).filterMap
        (parseOptRow ri pi isStartIndex isEndIndex osStartIndex osEndIndex)
      if optResults.length = 0 then ([], false) else (optResults, true)
    | _, _ => ([], false)

/-- A default, empty date range (used only as a `getD` fallback). -/
def dfltRange : DateRange := ⟨"", "", "", ""⟩

/-- A default, empty job document (used only as a `getD` fallback). -/
def dfltJob : JobDoc := ⟨[], []⟩

theorem replaceTags_map_fst (l : List (String × String)) (n v : String) :
    (replaceTags l n v).map Prod.fst = l.map Prod.fst := by
  induction l with
  | nil => rfl
  | cons hd tl ih =>
    cases hd with
    | mk n0 v0 =>
      by_cases h : n0 = n <;> simp [replaceTags, h, ih]

theorem hasTag_replaceXMLTag (doc : JobDoc) (n v m : String) :
    hasTag (replaceXMLTag doc n v) m = hasTag doc m := by
  rcases doc with ⟨tags, params⟩
  simp only [hasTag, replaceXMLTag]
  induction tags with
  | nil => rfl
  | cons hd tl ih =>
    rcases hd with ⟨n0, v0⟩
    by_cases h : n0 = n <;> simp_all [replaceTags]

theorem hasTag_addXMLTag_ne (doc : JobDoc) (n v m : String) (h : n ≠ m) :
    hasTag (addXMLTag doc n v) m = hasTag doc m := by
  simp [hasTag, addXMLTag, h]

theorem hasTag_removeXMLTag_false (doc : JobDoc) (n m : String)
    (h : hasTag doc m = false) : hasTag (removeXMLTag doc n) m = false := by
  rcases doc with ⟨tags, params⟩
  simp only [hasTag, removeXMLTag] at h ⊢
  induction tags with
  | nil => rfl
  | cons hd tl ih =>
    rcases hd with ⟨n0, v0⟩
    simp only [List.any_cons, Bool.or_eq_false_iff] at h
    by_cases h0 : n0 = n
    · simpa [removeTags, h0] using h.2
    · simp [removeTags, h0, h.1, ih h.2]

theorem mem_replaceTags_self (l : List (String × String)) (n v : String)
    (h : l.any (fun p => p.1 = n) = true) : (n, v) ∈ replaceTags l n v := by
  induction l with
  | nil => simp at h
  | cons hd tl ih =>
    rcases hd with ⟨n0, v0⟩
    by_cases h0 : n0 = n
    · subst h0; simp [replaceTags]
    · simp only [List.any_cons, Bool.or_eq_true] at h
      rcases h with h | h
      · simp at h; exact absurd h h0
      · simp [replaceTags, h0, ih h]

theorem mem_replaceTags_of_ne (l : List (String × String)) (n v : String)
    (p : String × String) (hp : p ∈ l) (hne : p.1 ≠ n) : p ∈ replaceTags l n v := by
  induction l with
  | nil => simp at hp
  | cons hd tl ih =>
    rcases hd with ⟨n0, v0⟩
    rcases List.mem_cons.mp hp with hp | hp
    · by_cases h0 : n0 = n
      · rw [hp] at hne; simp at hne; exact absurd h0 hne
      · simp [replaceTags, h0, hp]
    · by_cases h0 : n0 = n
      · simp only [replaceTags, h0, if_true]; exact List.mem_cons_of_mem _ hp
      · simp only [replaceTags, h0, if_false]; exact List.mem_cons_of_mem _ (ih hp)

theorem mem_removeTags_of_ne (l : List (String × String)) (n : String)
    (p : String × String) (hp : p ∈ l) (hne : p.1 ≠ n) : p ∈ removeTags l n := by
  induction l with
  | nil => simp at hp
  | cons hd tl ih =>
    rcases hd with ⟨n0, v0⟩
    rcases List.mem_cons.mp hp with hp | hp
    · by_cases h0 : n0 = n
      · rw [hp] at hne; simp at hne; exact absurd h0 hne
      · simp [removeTags, h0, hp]
    · by_cases h0 : n0 = n
      · simpa [removeTags, h0] using hp
      · simp only [removeTags, h0, if_false]; exact List.mem_cons_of_mem _ (ih hp)

theorem findTagRaw_replaceTags_ne (l : List (String × String)) (n v m : String)
    (h : n ≠ m) : findTagRaw (replaceTags l n v) m = findTagRaw l m := by
  induction l with
  | nil => rfl
  | cons hd tl ih =>
    rcases hd with ⟨n0, v0⟩
    by_cases h0 : n0 = n
    · subst h0
      simp [replaceTags, findTagRaw, List.find?, h]
    · by_cases hm : n0 = m <;> simp_all [replaceTags, findTagRaw, List.find?]

theorem findTagRaw_removeTags_ne (l : List (String × String)) (n m : String)
    (h : n ≠ m) : findTagRaw (removeTags l n) m = findTagRaw l m := by
  induction l with
  | nil => rfl
  | cons hd tl ih =>
    rcases hd with ⟨n0, v0⟩
    by_cases h0 : n0 = n
    · subst h0
      simp [removeTags, findTagRaw, List.find?, h]
    · by_cases hm : n0 = m <;> simp_all [removeTags, findTagRaw, List.find?]

theorem findTagRaw_replaceTags_self (l : List (String × String)) (n v : String)
    (h : l.any (fun p => p.1 = n) = true) :
    findTagRaw (replaceTags l n v) n = some v := by
  induction l with
  | nil => simp at h
  | cons hd tl ih =>
    rcases hd with ⟨n0, v0⟩
    by_cases h0 : n0 = n
    · subst h0; simp [replaceTags, findTagRaw, List.find?]
    · simp only [List.any_cons, Bool.or_eq_true] at h
      rcases h with h | h
      · simp at h; exact absurd h h0
      · simp only [replaceTags, h0, if_false]
        simpa [findTagRaw, List.find?, h0] using ih h

theorem countTag_replaceXMLTag (doc : JobDoc) (n v m : String) :
    countTag (replaceXMLTag doc n v) m = countTag doc m := by
  rcases doc with ⟨tags, params⟩
  simp only [countTag, replaceXMLTag]
  induction tags with
  | nil => rfl
  | cons hd tl ih =>
    rcases hd with ⟨n0, v0⟩
    by_cases h0 : n0 = n <;> by_cases hm : n0 = m <;>
      simp_all [replaceTags, List.filter]

theorem countTag_removeTags_self (l : List (String × String)) (n : String) :
    ((removeTags l n).filter (fun p => p.1 = n)).length =
      (l.filter (fun p => p.1 = n)).length - 1 := by
  induction l with
  | nil => rfl
  | cons hd tl ih =>
    rcases hd with ⟨n0, v0⟩
    by_cases h0 : n0 = n <;> simp_all [removeTags, List.filter]

theorem hasTag_eq_false_of_countTag_zero (doc : JobDoc) (m : String)
    (h : countTag doc m = 0) : hasTag doc m = false := by
  simp only [countTag, List.length_eq_zero, List.filter_eq_nil_iff] at h
  simp only [hasTag, List.any_eq_false]
  intro p hp
  simpa using h p hp

theorem wfoBody_eq (ed : String) (runs isD osD r : Int) (s : String) (dr : DateRange)
    (h : wfoBody ed runs isD osD r s = some dr) :
    ∃ d e, parseDate s = some d ∧ parseDate (formatDate (d + isD)) = some e ∧
      dr = ⟨s, formatDate (d + isD), formatDate (e + 1),
            if r = runs - 1 then ed else formatDate (e + 1 + osD)⟩ := by
  simp only [wfoBody, Option.pure_def, Option.bind_eq_bind, Option.bind_eq_some] at h
  rcases h with ⟨d, hd, e, he, h⟩
  exact ⟨d, e, hd, he, (Option.some_inj.mp h).symm⟩

theorem wfoRunsLoop_one (ed : String) (runs isD osD r : Int) (s : String) :
    wfoRunsLoop ed runs isD osD 1 r s =
      (wfoBody ed runs isD osD r s).bind (fun dr => some [dr]) := rfl

theorem wfoRunsLoop_two (ed : String) (runs isD osD : Int) (j : Nat) (r : Int) (s : String) :
    wfoRunsLoop ed runs isD osD (j + 2) r s =
      (wfoBody ed runs isD osD r s).bind (fun dr =>
        (parseDate dr.OSEndDate).bind (fun prevOSEnd =>
          (wfoRunsLoop ed runs isD osD (j + 1) (r + 1)
            (formatDate (prevOSEnd - isD))).bind (fun rest =>
              some (dr :: rest)))) := rfl

theorem wfoRunsLoop_length (ed : String) (runs isD osD : Int) :
    ∀ (count : Nat) (r : Int) (s : String) (l : List DateRange),
      wfoRunsLoop ed runs isD osD count r s = some l → l.length = count := by
  intro count
  induction count with
  | zero => intro r s l h; simp only [wfoRunsLoop] at h; simp [← Option.some_inj.mp h]
  | succ iter ih =>
    intro r s l h
    cases iter with
    | zero =>
      rw [wfoRunsLoop_one] at h
      rcases Option.bind_eq_some.mp h with ⟨dr, hdr, h⟩
      simp only [Option.some_inj] at h
      simp [← h]
    | succ j =>
      rw [wfoRunsLoop_two] at h
      rcases Option.bind_eq_some.mp h with ⟨dr, hdr, h⟩
      rcases Option.bind_eq_some.mp h with ⟨prev, hprev, h⟩
      rcases Option.bind_eq_some.mp h with ⟨rest, hrest, h⟩
      simp only [Option.some_inj] at h
      have := ih (r + 1) (formatDate (prev - isD)) rest hrest
      simp [← h, this]

theorem wfoRunsLoop_head_isStart (ed : String) (runs isD osD : Int) (it : Nat) (r : Int)
    (s : String) (l : List DateRange)
    (h : wfoRunsLoop ed runs isD osD (it + 1) r s = some l) :
    (l.getD 0 dfltRange).ISStartDate = s := by
  cases it with
  | zero =>
    rw [wfoRunsLoop_one] at h
    rcases Option.bind_eq_some.mp h with ⟨dr, hdr, h⟩
    simp only [Option.some_inj] at h
    rcases wfoBody_eq ed runs isD osD r s dr hdr with ⟨d, e, _, _, hdr2⟩
    simp [← h, hdr2]
  | succ j =>
    rw [wfoRunsLoop_two] at h
    rcases Option.bind_eq_some.mp h with ⟨dr, hdr, h⟩
    rcases Option.bind_eq_some.mp h with ⟨prev, hprev, h⟩
    rcases Option.bind_eq_some.mp h with ⟨rest, hrest, h⟩
    simp only [Option.some_inj] at h
    rcases wfoBody_eq ed runs isD osD r s dr hdr with ⟨d, e, _, _, hdr2⟩
    simp [← h, hdr2]

theorem wfoRunsLoop_consecutive (ed : String) (runs isD osD : Int) :
    ∀ (count : Nat) (r : Int) (s : String) (l : List DateRange),
      wfoRunsLoop ed runs isD osD count r s = some l →
      ∀ i : Nat, i + 1 < l.length →
        ∃ d, parseDate ((l.getD i dfltRange).OSEndDate) = some d ∧
          (l.getD (i + 1) dfltRange).ISStartDate = formatDate (d - isD) := by
  intro count
  induction count with
  | zero =>
    intro r s l h i hi
    simp only [wfoRunsLoop] at h
    rw [← Option.some_inj.mp h] at hi
    simp at hi
  | succ iter ih =>
    intro r s l h i hi
    cases iter with
    | zero =>
      rw [wfoRunsLoop_one] at h
      rcases Option.bind_eq_some.mp h with ⟨dr, hdr, h⟩
      simp only [Option.some_inj] at h
      rw [← h] at hi
      simp at hi
    | succ j =>
      rw [wfoRunsLoop_two] at h
      rcases Option.bind_eq_some.mp h with ⟨dr, hdr, h⟩
      rcases Option.bind_eq_some.mp h with ⟨prev, hprev, h⟩
      rcases Option.bind_eq_some.mp h with ⟨rest, hrest, h⟩
      simp only [Option.some_inj] at h
      subst h
      cases i with
      | zero =>
        refine ⟨prev, by simpa using hprev, ?_⟩
        simpa using wfoRunsLoop_head_isStart ed runs isD osD j (r + 1)
          (formatDate (prev - isD)) rest hrest
      | succ i0 =>
        have hlen : i0 + 1 < rest.length := by
          simp only [List.length_cons] at hi
          omega
        have := ih (r + 1) (formatDate (prev - isD)) rest hrest i0 hlen
        simpa using this

theorem wfoRunsLoop_osEnd (ed : String) (runs isD osD : Int) :
    ∀ (count : Nat) (r : Int) (s : String) (l : List DateRange),
      wfoRunsLoop ed runs isD osD count r s = some l →
      ∀ i : Nat, i < l.length → r + (i : Int) = runs - 1 →
        (l.getD i dfltRange).OSEndDate = ed := by
  intro count
  induction count with
  | zero =>
    intro r s l h i hi
    simp only [wfoRunsLoop] at h
    rw [← Option.some_inj.mp h] at hi
    simp at hi
  | succ iter ih =>
    intro r s l h i hi hr
    cases iter with
    | zero =>
      rw [wfoRunsLoop_one] at h
      rcases Option.bind_eq_some.mp h with ⟨dr, hdr, h⟩
      simp only [Option.some_inj] at h
      subst h
      cases i with
      | zero =>
        rcases wfoBody_eq ed runs isD osD r s dr hdr with ⟨d, e, _, _, hdr2⟩
        have hrr : r = runs - 1 := by omega
        simp [hdr2, hrr]
      | succ i0 => simp at hi
    | succ j =>
      rw [wfoRunsLoop_two] at h
      rcases Option.bind_eq_some.mp h with ⟨dr, hdr, h⟩
      rcases Option.bind_eq_some.mp h with ⟨prev, hprev, h⟩
      rcases Option.bind_eq_some.mp h with ⟨rest, hrest, h⟩
      simp only [Option.some_inj] at h
      subst h
      cases i with
      | zero =>
        rcases wfoBody_eq ed runs isD osD r s dr hdr with ⟨d, e, _, _, hdr2⟩
        have hrr : r = runs - 1 := by omega
        simp [hdr2, hrr]
      | succ i0 =>
        have hlen : i0 < rest.length := by
          simp only [List.length_cons] at hi
          omega
        have hr0 : (r + 1) + (i0 : Int) = runs - 1 := by push_cast at hr ⊢; omega
        simpa using ih (r + 1) (formatDate (prev - isD)) rest hrest i0 hlen hr0

theorem buildWFOJobElements_length (doc : JobDoc) (ps : String) (total : Nat) :
    ∀ (i : Nat) (drs : List DateRange),
      (buildWFOJobElements doc ps total i drs).length = drs.length := by
  intro i drs
  induction drs generalizing i with
  | nil => rfl
  | cons dr rest ih => simp [buildWFOJobElements, ih]

theorem buildWFOJobElements_getD (doc : JobDoc) (ps : String) (total : Nat) :
    ∀ (drs : List DateRange) (i j : Nat), j < drs.length →
      (buildWFOJobElements doc ps total i drs).getD j dfltJob =
        mkWFORunJob doc ps total (i + j + 1) (drs.getD j dfltRange) := by
  intro drs
  induction drs with
  | nil => intro i j hj; simp at hj
  | cons dr rest ih =>
    intro i j hj
    cases j with
    | zero => simp [buildWFOJobElements]
    | succ j0 =>
      simp only [List.length_cons] at hj
      have := ih (i + 1) j0 (by omega)
      simp only [buildWFOJobElements, List.getD_cons_succ]
      rw [this]
      congr 1
      omega

theorem hasTag_addXMLTag_mono (doc : JobDoc) (n v m : String)
    (h : hasTag doc m = true) : hasTag (addXMLTag doc n v) m = true := by
  simp only [hasTag, addXMLTag, List.any_append, Bool.or_eq_true]
  exact Or.inl h

theorem mkWFORunJob_final (doc : JobDoc) (ps : String) (total runNumber : Nat)
    (dr : DateRange) (hfin : runNumber = total)
    (hp : hasTag doc "oos_percent" = true)
    (hno1 : hasTag doc "os_start_date" = false)
    (hno2 : hasTag doc "os_end_date" = false) :
    ("oos_percent", "0.0") ∈ (mkWFORunJob doc ps total runNumber dr).tags ∧
    hasTag (mkWFORunJob doc ps total runNumber dr) "os_start_date" = false ∧
    hasTag (mkWFORunJob doc ps total runNumber dr) "os_end_date" = false := by
  simp only [mkWFORunJob, hfin, if_true]
  set j1 := addXMLTag doc "run" (toString total) with hj1
  set j2 := replaceXMLTag j1 "startDate" dr.ISStartDate with hj2
  set j3 := replaceXMLTag j2 "endDate" dr.GetEndDate with hj3
  set j4 := addXMLTag j3 "is_start_date" dr.ISStartDate with hj4
  set j5 := addXMLTag j4 "is_end_date" dr.ISEndDate with hj5
  set j6 := replaceXMLTag j5 "oos_percent" "0.0" with hj6
  have hp5 : hasTag j5 "oos_percent" = true := by
    apply hasTag_addXMLTag_mono
    apply hasTag_addXMLTag_mono
    rw [hj3, hasTag_replaceXMLTag, hj2, hasTag_replaceXMLTag]
    exact hasTag_addXMLTag_mono _ _ _ _ hp
  refine ⟨?_, ?_, ?_⟩
  · apply mem_removeTags_of_ne _ _ _ _ (by simp)
    exact mem_replaceTags_self _ _ _ hp5
  · apply hasTag_removeXMLTag_false
    rw [hj6, hasTag_replaceXMLTag, hj5]
    rw [hasTag_addXMLTag_ne _ _ _ _ (by simp), hj4]
    rw [hasTag_addXMLTag_ne _ _ _ _ (by simp), hj3]
    rw [hasTag_replaceXMLTag, hj2, hasTag_replaceXMLTag, hj1]
    rw [hasTag_addXMLTag_ne _ _ _ _ (by simp)]
    exact hno1
  · apply hasTag_removeXMLTag_false
    rw [hj6, hasTag_replaceXMLTag, hj5]
    rw [hasTag_addXMLTag_ne _ _ _ _ (by simp), hj4]
    rw [hasTag_addXMLTag_ne _ _ _ _ (by simp), hj3]
    rw [hasTag_replaceXMLTag, hj2, hasTag_replaceXMLTag, hj1]
    rw [hasTag_addXMLTag_ne _ _ _ _ (by simp)]
    exact hno2

theorem hasTag_of_extract (doc : JobDoc) (n v : String)
    (h : extractXMLTagValue doc n = some v) : hasTag doc n = true := by
  simp only [extractXMLTagValue, findTagRaw, Option.map_eq_some'] at h
  rcases h with ⟨q, ⟨a, ha, _⟩, _⟩
  simp only [hasTag, List.any_eq_true]
  refine ⟨a, List.mem_of_find?_eq_some ha, ?_⟩
  have := List.find?_some ha
  simpa using this

theorem calculateWFORuns_parts (sd ed : String) (N : Int) (p : Frac)
    (ranges : List DateRange) (hc : calculateWFORuns sd ed N p = some ranges) :
    ∃ ds de, parseDate sd = some ds ∧ parseDate ed = some de ∧
      wfoRunsLoop ed N (wfoIsDays (de - ds) N p) (wfoOsDays (de - ds) N p)
        (N + 1).toNat 0 (formatDate ds) = some ranges := by
  simp only [calculateWFORuns, Option.pure_def, Option.bind_eq_bind, Option.bind_eq_some] at hc
  rcases hc with ⟨ds, hds, de, hde, hloop⟩
  exact ⟨ds, de, hds, hde, hloop⟩

theorem calculateWFORuns_length (sd ed : String) (N : Int) (p : Frac)
    (ranges : List DateRange) (hc : calculateWFORuns sd ed N p = some ranges) :
    ranges.length = (N + 1).toNat := by
  rcases calculateWFORuns_parts sd ed N p ranges hc with ⟨ds, de, _, _, hloop⟩
  exact wfoRunsLoop_length _ _ _ _ _ _ _ _ hloop

theorem processWFOJob_eq (doc : JobDoc) (rs ps sd ed : String) (N : Int) (p : Frac)
    (ranges : List DateRange)
    (h1 : extractXMLTagValue doc "oos_runs" = some rs)
    (h3 : extractXMLTagValue doc "oos_percent" = some ps)
    (h5 : extractXMLTagValue doc "startDate" = some sd)
    (h6 : extractXMLTagValue doc "endDate" = some ed)
    (h2 : goAtoi rs = some N)
    (h4 : parseGoFloat ps = some p)
    (hc : calculateWFORuns sd ed N p = some ranges) :
    processWFOJob doc = buildWFOJobElements doc ps ranges.length 0 ranges := by
  simp only [processWFOJob, h1, h3, h5, h6, h2, h4, hc]

/-- A walk-forward descriptor used by the witness theorems: one job
element, 2020-01-01 to 2020-01-15, 1 OOS run at 50 percent (all float
intermediates exactly representable). -/
def wfoDocA : JobDoc :=
  ⟨[("task_type", "WFO"), ("Symbol", "@ES"), ("startDate", "2020-01-01"),
    ("endDate", "2020-01-15"), ("oos_percent", "50"), ("oos_runs", "1")], []⟩

/-- The same walk-forward descriptor with `oos_runs` set to -2, whose
text parses to an integer as the claim requires. -/
def wfoDocNeg : JobDoc :=
  ⟨[("task_type", "WFO"), ("Symbol", "@ES"), ("startDate", "2020-01-01"),
    ("endDate", "2020-01-15"), ("oos_percent", "50"), ("oos_runs", "-2")], []⟩

/-- The run date ranges the client computes for `wfoDocA`. -/
def wfoRangesA : List DateRange :=
  [⟨"2020-01-01", "2020-01-08", "2020-01-09", "2020-01-15"⟩,
   ⟨"2020-01-08", "2020-01-15", "2020-01-16", "2020-01-23"⟩]

/-- C1 counterexample: the claim quantifies over every descriptor whose
`oos_runs` tag parses to an integer N, but for N = -2 (all other claim
hypotheses satisfied: `oos_percent` parses, the dates parse, one job
element) the expansion emits 0 job elements, not N + 1 = -1, so the
claim as stated is false; nonnegativity of N must be assumed. -/
theorem processWFOJob_negative_runs_counterexample :
    extractXMLTagValue wfoDocNeg "oos_runs" = some "-2" ∧
    goAtoi "-2" = some (-2) ∧
    extractXMLTagValue wfoDocNeg "oos_percent" = some "50" ∧
    parseGoFloat "50" = some ⟨50, 1⟩ ∧
    extractXMLTagValue wfoDocNeg "startDate" = some "2020-01-01" ∧
    extractXMLTagValue wfoDocNeg "endDate" = some "2020-01-15" ∧
    ((processWFOJob wfoDocNeg).length : Int) ≠ (-2) + 1 := by decide

/-- C1 (amended): for every walk-forward descriptor whose `oos_runs`
tag parses to a nonnegative integer N, whose `oos_percent` parses to a
float, whose `startDate`/`endDate` parse as YYYY-MM-DD dates, which
carries no pre-existing synthesized OS-date tags (per the data model a
cloud descriptor never does), and whose run-date calculation succeeds,
the walk-forward expansion emits exactly N + 1 job elements, and the
last element contains `oos_percent` 0.0 and no `os_start_date` or
`os_end_date` tag. -/
theorem processWFOJob_run_count (doc : JobDoc) (rs ps sd ed : String) (N : Int)
    (p : Frac) (ranges : List DateRange)
    (h1 : extractXMLTagValue doc "oos_runs" = some rs)
    (h2 : goAtoi rs = some N)
    (h3 : extractXMLTagValue doc "oos_percent" = some ps)
    (h4 : parseGoFloat ps = some p)
    (h5 : extractXMLTagValue doc "startDate" = some sd)
    (h6 : extractXMLTagValue doc "endDate" = some ed)
    (hN : 0 ≤ N)
    (hc : calculateWFORuns sd ed N p = some ranges)
    (hno1 : hasTag doc "os_start_date" = false)
    (hno2 : hasTag doc "os_end_date" = false) :
    ((processWFOJob doc).length : Int) = N + 1 ∧
    ("oos_percent", "0.0") ∈
      ((processWFOJob doc).getD ((processWFOJob doc).length - 1) dfltJob).tags ∧
    hasTag ((processWFOJob doc).getD ((processWFOJob doc).length - 1) dfltJob)
      "os_start_date" = false ∧
    hasTag ((processWFOJob doc).getD ((processWFOJob doc).length - 1) dfltJob)
      "os_end_date" = false := by
  have heq := processWFOJob_eq doc rs ps sd ed N p ranges h1 h3 h5 h6 h2 h4 hc
  have hrl := calculateWFORuns_length sd ed N p ranges hc
  have hbl := buildWFOJobElements_length doc ps ranges.length 0 ranges
  have hlen : (processWFOJob doc).length = ranges.length := by rw [heq, hbl]
  have hpos : 1 ≤ ranges.length := by omega
  have hint : ((processWFOJob doc).length : Int) = N + 1 := by
    rw [hlen]; omega
  refine ⟨hint, ?_⟩
  have hidx : ranges.length - 1 < ranges.length := by omega
  have hget := buildWFOJobElements_getD doc ps ranges.length ranges 0
    (ranges.length - 1) hidx
  have hlast : (processWFOJob doc).getD ((processWFOJob doc).length - 1) dfltJob =
      mkWFORunJob doc ps ranges.length (0 + (ranges.length - 1) + 1)
        (ranges.getD (ranges.length - 1) dfltRange) := by
    rw [heq, hbl, hget]
  have hfin : 0 + (ranges.length - 1) + 1 = ranges.length := by omega
  have := mkWFORunJob_final doc ps ranges.length (0 + (ranges.length - 1) + 1)
    (ranges.getD (ranges.length - 1) dfltRange) hfin
    (hasTag_of_extract doc "oos_percent" ps h3) hno1 hno2
  rw [hlast]
  exact this

/-- C1 witness: the amended run-count theorem applied to the concrete
one-run descriptor `wfoDocA`, every hypothesis discharged by
evaluation. -/
theorem processWFOJob_run_count_witness :
    (extractXMLTagValue wfoDocA "oos_runs" = some "1" ∧
     goAtoi "1" = some 1 ∧
     extractXMLTagValue wfoDocA "oos_percent" = some "50" ∧
     parseGoFloat "50" = some ⟨50, 1⟩ ∧
     extractXMLTagValue wfoDocA "startDate" = some "2020-01-01" ∧
     extractXMLTagValue wfoDocA "endDate" = some "2020-01-15" ∧
     (0 : Int) ≤ 1 ∧
     calculateWFORuns "2020-01-01" "2020-01-15" 1 ⟨50, 1⟩ = some wfoRangesA ∧
     hasTag wfoDocA "os_start_date" = false ∧
     hasTag wfoDocA "os_end_date" = false) ∧
    ((processWFOJob wfoDocA).length : Int) = 1 + 1 ∧
    ("oos_percent", "0.0") ∈
      ((processWFOJob wfoDocA).getD ((processWFOJob wfoDocA).length - 1) dfltJob).tags ∧
    hasTag ((processWFOJob wfoDocA).getD ((processWFOJob wfoDocA).length - 1) dfltJob)
      "os_start_date" = false ∧
    hasTag ((processWFOJob wfoDocA).getD ((processWFOJob wfoDocA).length - 1) dfltJob)
      "os_end_date" = false :=
  ⟨⟨by decide, by decide, by decide, by decide, by decide, by decide, by decide,
    by decide, by decide, by decide⟩,
   processWFOJob_run_count wfoDocA "1" "50" "2020-01-01" "2020-01-15" 1 ⟨50, 1⟩
     wfoRangesA (by decide) (by decide) (by decide) (by decide) (by decide)
     (by decide) (by decide) (by decide) (by decide) (by decide)⟩

/-- C2: at the concrete one-run walk-forward input `wfoDocA` the final
extra (IS-only) run's `endDate` is replaced with `GetEndDate` of its
date range, and since `calculateWFORuns` fills `OSEndDate` for every
run, `GetEndDate` returns the OS end 2020-01-23 (eight days past the
run's IS end 2020-01-15, and past the global end) instead of the IS
end that the specification and `GetEndDate`'s own comment promise. -/
theorem processWFOJob_final_run_endDate_bug :
    (processWFOJob wfoDocA).length = 2 ∧
    findTagRaw ((processWFOJob wfoDocA).getD 1 dfltJob).tags "endDate" =
      some "2020-01-23" ∧
    findTagRaw ((processWFOJob wfoDocA).getD 1 dfltJob).tags "is_end_date" =
      some "2020-01-15" ∧
    DateRange.GetEndDate ⟨"2020-01-08", "2020-01-15", "2020-01-16", "2020-01-23"⟩ =
      "2020-01-23" ∧
    ("2020-01-23" : String) ≠ "2020-01-15" := by decide

/-- C3: walk-forward coverage.  For every successful walk-forward date
calculation with N ≥ 1 cloud-specified runs: for each k with
2 ≤ k ≤ N + 1, run k's IS start is run (k-1)'s OS end shifted back by
`isDays` calendar days (equivalently, run (k-1)'s OS end equals run
k's IS start plus `isDays` days — the intentional overlap), and run
N's OS end equals the global end date of the input descriptor. -/
theorem calculateWFORuns_coverage (sd ed : String) (N : Int) (p : Frac)
    (ds de : Int) (ranges : List DateRange)
    (hps : parseDate sd = some ds) (hpe : parseDate ed = some de)
    (hN : 1 ≤ N)
    (hc : calculateWFORuns sd ed N p = some ranges) :
    (∀ k : Nat, 2 ≤ k → k ≤ N.toNat + 1 →
      shiftDateStr ((ranges.getD (k - 2) dfltRange).OSEndDate)
        (-(wfoIsDays (de - ds) N p)) =
        some ((ranges.getD (k - 1) dfltRange).ISStartDate)) ∧
    (ranges.getD (N.toNat - 1) dfltRange).OSEndDate = ed := by
  rcases calculateWFORuns_parts sd ed N p ranges hc with ⟨ds0, de0, hds0, hde0, hloop⟩
  rw [hps] at hds0
  rw [hpe] at hde0
  have hds : ds0 = ds := (Option.some_inj.mp hds0).symm
  have hde : de0 = de := (Option.some_inj.mp hde0).symm
  subst hds
  subst hde
  have hrl : ranges.length = (N + 1).toNat := wfoRunsLoop_length _ _ _ _ _ _ _ _ hloop
  constructor
  · intro k hk2 hkN
    have hi : (k - 2) + 1 < ranges.length := by omega
    rcases wfoRunsLoop_consecutive _ _ _ _ _ _ _ _ hloop (k - 2) hi with ⟨d, hd, hstart⟩
    have hk1 : k - 1 = (k - 2) + 1 := by omega
    rw [hk1, shiftDateStr, hd, hstart]
    simp [Int.sub_eq_add_neg]
  · have hi : N.toNat - 1 < ranges.length := by omega
    have hr0 : (0 : Int) + ((N.toNat - 1 : Nat) : Int) = N - 1 := by omega
    exact wfoRunsLoop_osEnd _ _ _ _ _ _ _ _ hloop (N.toNat - 1) hi hr0

/-- C3 witness: the coverage theorem applied to the concrete one-run
calculation behind `wfoDocA` (isDays = 7), instantiated at k = 2: run
1's OS end 2020-01-15 shifted by -7 days is run 2's IS start
2020-01-08, and run 1 (= run N) has the global end as its OS end. -/
theorem calculateWFORuns_coverage_witness :
    (parseDate "2020-01-01" = some 18262 ∧
     parseDate "2020-01-15" = some 18276 ∧
     (1 : Int) ≤ 1 ∧
     calculateWFORuns "2020-01-01" "2020-01-15" 1 ⟨50, 1⟩ = some wfoRangesA) ∧
    shiftDateStr ((wfoRangesA.getD 0 dfltRange).OSEndDate)
      (-(wfoIsDays (18276 - 18262) 1 ⟨50, 1⟩)) =
      some ((wfoRangesA.getD 1 dfltRange).ISStartDate) ∧
    (wfoRangesA.getD 0 dfltRange).OSEndDate = "2020-01-15" := by
  have h := calculateWFORuns_coverage "2020-01-01" "2020-01-15" 1 ⟨50, 1⟩
    18262 18276 wfoRangesA (by decide) (by decide) (by decide) (by decide)
  exact ⟨⟨by decide, by decide, by decide, by decide⟩,
    h.1 2 (by decide) (by decide), h.2⟩

/-- Lookup of `param_type` and `optimizable_ind` in the child list
written by the fixed-parameter branch of `transformParametersToFixed`
(whatever the optimized value and whether `data_type` is emitted). -/

theorem childVal_fixed_shape (v0 ft dt : String) :
    childVal (([("value", v0), ("param_type", ft)] ++
      (if dt ≠ "" then [("data_type", dt)] else [])) ++
      [("optimizable_ind", "false")]) "param_type" = ft ∧
    childVal (([("value", v0), ("param_type", ft)] ++
      (if dt ≠ "" then [("data_type", dt)] else [])) ++
      [("optimizable_ind", "false")]) "optimizable_ind" = "false" := by
  by_cases hdt : dt = "" <;> simp [hdt, childVal, List.find?]

/-- C4: second-pass parameter fixity.  Every parameter block of the
original descriptor's parameters section whose `param_type` is
`OptRange` and whose `optimizable_ind` is true is emitted by the
second-pass transformation as `Fixed` (or `FixedString` when its
`data_type` folds to "string", `FixedBool` when it folds to "bool" or
"boolean") with `optimizable_ind` false. -/
theorem transformParametersToFixed_fixity (blocks : List ParamBlock)
    (vals : List (String × String)) (b : ParamBlock) (hb : b ∈ blocks)
    (hopt : childVal b.children "param_type" = "OptRange")
    (hind : eqFold (childVal b.children "optimizable_ind") "true" = true) :
    renderParamBlock vals b ∈ transformParametersToFixed blocks vals ∧
    (renderParamBlock vals b).name = b.name ∧
    childVal (renderParamBlock vals b).children "optimizable_ind" = "false" ∧
    childVal (renderParamBlock vals b).children "param_type" =
      (if eqFold (childVal b.children "data_type") "string" = true then "FixedString"
       else if eqFold (childVal b.children "data_type") "bool" = true ∨
              eqFold (childVal b.children "data_type") "boolean" = true then "FixedBool"
       else "Fixed") := by
  have hrb : renderParamBlock vals b =
      ⟨b.name,
        ([("value", match vals.find? (fun q => q.1 = b.name) with
                    | some q => q.2
                    | none => childVal b.children "value"),
          ("param_type",
            if eqFold (childVal b.children "data_type") "string" then "FixedString"
            else if eqFold (childVal b.children "data_type") "bool" ∨
                   eqFold (childVal b.children "data_type") "boolean" then "FixedBool"
            else "Fixed")] ++
          (if childVal b.children "data_type" ≠ "" then
            [("data_type", childVal b.children "data_type")] else [])) ++
          [("optimizable_ind", "false")]⟩ := by
    rw [renderParamBlock, if_pos ⟨hopt, hind⟩]
  refine ⟨List.mem_map_of_mem _ hb, ?_, ?_, ?_⟩
  · rw [hrb]
  · rw [hrb]
    exact (childVal_fixed_shape _ _ _).2
  · rw [hrb]
    exact (childVal_fixed_shape _ _ _).1

/-- A concrete optimizable integer parameter block. -/
def paramBlockW : ParamBlock :=
  ⟨"a", [("value", "5"), ("param_type", "OptRange"), ("data_type", "int"),
         ("optimizable_ind", "true")]⟩

/-- C4 witness: the fixity theorem applied to the concrete optimizable
block `paramBlockW` with optimized value 10. -/
theorem transformParametersToFixed_fixity_witness :
    (paramBlockW ∈ [paramBlockW] ∧
     childVal paramBlockW.children "param_type" = "OptRange" ∧
     eqFold (childVal paramBlockW.children "optimizable_ind") "true" = true) ∧
    renderParamBlock [("a", "10")] paramBlockW ∈
      transformParametersToFixed [paramBlockW] [("a", "10")] ∧
    (renderParamBlock [("a", "10")] paramBlockW).name = paramBlockW.name ∧
    childVal (renderParamBlock [("a", "10")] paramBlockW).children
      "optimizable_ind" = "false" ∧
    childVal (renderParamBlock [("a", "10")] paramBlockW).children "param_type" =
      (if eqFold (childVal paramBlockW.children "data_type") "string" = true
       then "FixedString"
       else if eqFold (childVal paramBlockW.children "data_type") "bool" = true ∨
              eqFold (childVal paramBlockW.children "data_type") "boolean" = true
       then "FixedBool"
       else "Fixed") :=
  ⟨⟨by decide, by decide, by decide⟩,
   transformParametersToFixed_fixity [paramBlockW] [("a", "10")] paramBlockW
     (by decide) (by decide) (by decide)⟩

/-- Removing the first tag of a name decrements its occurrence count. -/
theorem countTag_removeXMLTag_self (doc : JobDoc) (n : String) :
    countTag (removeXMLTag doc n) n = countTag doc n - 1 := by
  simpa [countTag, removeXMLTag] using countTag_removeTags_self doc.tags n

/-- C6: multi-symbol expansion.  For an MM descriptor holding exactly
one `symbols` tag whose comma-separated list cleans up to k ≥ 2
distinct symbols, and holding a `Symbol` tag, the expansion emits
exactly k job elements (hence k `<Job>` opening tags), none of which
retains a `symbols` tag, and the `Symbol` value of the emitted
elements is exactly the cleaned symbol list in input order. -/
theorem processMMJob_expansion (doc : JobDoc) (v : String) (syms : List String)
    (hv : findTagRaw doc.tags "symbols" = some v)
    (hsyms : cleanSymbols (goSplitComma v) = syms)
    (h2 : 2 ≤ syms.length) (hnd : syms.Nodup)
    (hsym : hasTag doc "Symbol" = true)
    (hone : countTag doc "symbols" = 1) :
    (processMMJob doc).length = syms.length ∧
    (∀ j ∈ processMMJob doc, hasTag j "symbols" = false) ∧
    (processMMJob doc).map (fun j => findTagRaw j.tags "Symbol") = syms.map some := by
  have hraw : 2 ≤ (goSplitComma v).length := by
    have hle : (cleanSymbols (goSplitComma v)).length ≤ (goSplitComma v).length :=
      List.length_filterMap_le _ _
    rw [hsyms] at hle
    omega
  have hguard : ¬ (goSplitComma v).length ≤ 1 := by omega
  have heq : processMMJob doc =
      syms.map (fun s => removeXMLTag (replaceXMLTag doc "Symbol" s) "symbols") := by
    simp only [processMMJob, hv, if_neg hguard, hsyms]
  rw [heq]
  refine ⟨by simp, ?_, ?_⟩
  · intro j hj
    rcases List.mem_map.mp hj with ⟨s, _, hjs⟩
    rw [← hjs]
    apply hasTag_eq_false_of_countTag_zero
    rw [countTag_removeXMLTag_self, countTag_replaceXMLTag, hone]
  · rw [List.map_map]
    apply List.map_congr_left
    intro s _
    show findTagRaw (removeTags (replaceTags doc.tags "Symbol" s) "symbols") "Symbol" =
      some s
    rw [findTagRaw_removeTags_ne _ _ _ (by simp)]
    exact findTagRaw_replaceTags_self doc.tags "Symbol" s hsym

/-- The multi-symbol descriptor of scenario S1. -/
def mmDocW : JobDoc :=
  ⟨[("task_type", "MM"), ("Symbol", "@ES"), ("symbols", "@ES,@NQ,@YM")], []⟩

/-- C6 witness: the multi-symbol expansion theorem applied to the
three-symbol descriptor of scenario S1. -/
theorem processMMJob_expansion_witness :
    (findTagRaw mmDocW.tags "symbols" = some "@ES,@NQ,@YM" ∧
     cleanSymbols (goSplitComma "@ES,@NQ,@YM") = ["@ES", "@NQ", "@YM"] ∧
     2 ≤ (["@ES", "@NQ", "@YM"] : List String).length ∧
     (["@ES", "@NQ", "@YM"] : List String).Nodup ∧
     hasTag mmDocW "Symbol" = true ∧
     countTag mmDocW "symbols" = 1) ∧
    (processMMJob mmDocW).length = (["@ES", "@NQ", "@YM"] : List String).length ∧
    (∀ j ∈ processMMJob mmDocW, hasTag j "symbols" = false) ∧
    (processMMJob mmDocW).map (fun j => findTagRaw j.tags "Symbol") =
      (["@ES", "@NQ", "@YM"] : List String).map some :=
  ⟨⟨by decide, by decide, by decide, by decide, by decide, by decide⟩,
   processMMJob_expansion mmDocW "@ES,@NQ,@YM" ["@ES", "@NQ", "@YM"]
     (by decide) (by decide) (by decide) (by decide) (by decide) (by decide)⟩

/-- C7 counterexample: with the shipped default configuration (whose
`exponential_backoff.factor` is 1.5) and the current interval at the
5-minute minimum, an empty poll in the adaptive regime yields 6
minutes (the hard-coded 1.2 growth), not the 7.5 minutes that
multiplying by the configured factor would give; the configured factor
is never consulted. -/
theorem calculateAdaptiveInterval_factor_counterexample :
    defaultPollConfig.exponentialBackoff.factor = ⟨3, 2⟩ ∧
    calculateAdaptiveInterval defaultPollConfig 300000000000 false 0 =
      360000000000 ∧
    goTrunc ((Frac.ofInt 300000000000).mul
      defaultPollConfig.exponentialBackoff.factor) = 450000000000 ∧
    calculateAdaptiveInterval defaultPollConfig 300000000000 false 0 ≠
      goTrunc ((Frac.ofInt 300000000000).mul
        defaultPollConfig.exponentialBackoff.factor) := by decide

/-- C7 (amended): in the adaptive regime an empty poll multiplies the
current interval by the hard-coded constant 1.2 (not by the configured
`exponentialFactor`), truncated to a whole nanosecond count and
clamped to `maxInterval`. -/
theorem calculateAdaptiveInterval_empty_poll (cfg : PollConfig)
    (currentInterval remaining : Int) :
    calculateAdaptiveInterval cfg currentInterval false remaining =
      (if getMaxPollInterval cfg <
          goTrunc ((Frac.ofInt currentInterval).mul ⟨12, 10⟩)
       then getMaxPollInterval cfg
       else goTrunc ((Frac.ofInt currentInterval).mul ⟨12, 10⟩)) := by
  simp [calculateAdaptiveInterval]

/-- C10: the scheduler's interval computation is total and bounded.
For every poll outcome, remaining-job count, backlog-folder state
(including a read error) and internal state, provided the configured
minimum does not exceed the maximum, `CalculateOptimalInterval`
returns either the suspend sentinel 0 or a duration between
`minInterval` and `maxInterval`. -/
theorem CalculateOptimalInterval_bounded (cfg : PollConfig)
    (currentInterval consecutiveEmptyPolls : Int) (jobCountInToDo : Option Int)
    (hasJobs : Bool) (remaining : Int)
    (h : getMinPollInterval cfg ≤ getMaxPollInterval cfg) :
    CalculateOptimalInterval cfg currentInterval consecutiveEmptyPolls
      jobCountInToDo hasJobs remaining = 0 ∨
    (getMinPollInterval cfg ≤ CalculateOptimalInterval cfg currentInterval
        consecutiveEmptyPolls jobCountInToDo hasJobs remaining ∧
     CalculateOptimalInterval cfg currentInterval consecutiveEmptyPolls
        jobCountInToDo hasJobs remaining ≤ getMaxPollInterval cfg) := by
  rcases jobCountInToDo with _ | jc <;>
    simp only [CalculateOptimalInterval] <;> split_ifs <;> simp_all

/-- C10 witness: the bounds theorem applied to the default
configuration in the adaptive empty-poll state with an empty backlog
folder. -/
theorem CalculateOptimalInterval_bounded_witness :
    getMinPollInterval defaultPollConfig ≤ getMaxPollInterval defaultPollConfig ∧
    (CalculateOptimalInterval defaultPollConfig 300000000000 0 (some 0) false 0 = 0 ∨
     (getMinPollInterval defaultPollConfig ≤
        CalculateOptimalInterval defaultPollConfig 300000000000 0 (some 0) false 0 ∧
      CalculateOptimalInterval defaultPollConfig 300000000000 0 (some 0) false 0 ≤
        getMaxPollInterval defaultPollConfig)) :=
  ⟨by decide,
   CalculateOptimalInterval_bounded defaultPollConfig 300000000000 0 (some 0)
     false 0 (by decide)⟩

theorem processOptFilesLoop_err (uploadOk : String → Bool) :
    ∀ (l : List String) (st : OptFolders),
      (processOptFilesLoop uploadOk st l).errFolder = st.errFolder := by
  intro l
  induction l with
  | nil => intro st; rfl
  | cons g rest ih =>
    intro st
    simp only [processOptFilesLoop, processOptFilesStep]
    by_cases hg : uploadOk g = true <;> simp [hg, ih, moveOptFile]

theorem processOptFilesLoop_in_not_mem (uploadOk : String → Bool) (f : String) :
    ∀ (l : List String) (st : OptFolders),
      f ∉ st.inFolder → f ∉ (processOptFilesLoop uploadOk st l).inFolder := by
  intro l
  induction l with
  | nil => intro st h; exact h
  | cons g rest ih =>
    intro st h
    simp only [processOptFilesLoop, processOptFilesStep]
    by_cases hg : uploadOk g = true
    · simp only [hg, if_true]
      exact ih _ (fun hc => h (List.mem_of_mem_erase hc))
    · simp only [hg, if_false]
      exact ih _ h

theorem processOptFilesLoop_done_mono (uploadOk : String → Bool) (f : String) :
    ∀ (l : List String) (st : OptFolders),
      f ∈ st.doneFolder → f ∈ (processOptFilesLoop uploadOk st l).doneFolder := by
  intro l
  induction l with
  | nil => intro st h; exact h
  | cons g rest ih =>
    intro st h
    simp only [processOptFilesLoop, processOptFilesStep]
    by_cases hg : uploadOk g = true
    · simp only [hg, if_true]
      exact ih _ (by simp [moveOptFile, h])
    · simp only [hg, if_false]
      exact ih _ h

theorem processOptFilesLoop_failed_stays (uploadOk : String → Bool) (f : String)
    (hf : uploadOk f = false) :
    ∀ (l : List String) (st : OptFolders),
      f ∈ st.inFolder → f ∈ (processOptFilesLoop uploadOk st l).inFolder := by
  intro l
  induction l with
  | nil => intro st h; exact h
  | cons g rest ih =>
    intro st h
    simp only [processOptFilesLoop, processOptFilesStep]
    by_cases hg : uploadOk g = true
    · simp only [hg, if_true]
      apply ih
      have hne : f ≠ g := fun he => by rw [he] at hf; rw [hf] at hg; exact Bool.false_ne_true hg
      exact (List.mem_erase_of_ne hne).mpr h
    · simp only [hg, if_false]
      exact ih _ h

theorem processOptFilesLoop_success (uploadOk : String → Bool) (f : String)
    (hf : uploadOk f = true) :
    ∀ (l : List String) (st : OptFolders), st.inFolder.Nodup → f ∈ l →
      f ∈ (processOptFilesLoop uploadOk st l).doneFolder ∧
      f ∉ (processOptFilesLoop uploadOk st l).inFolder := by
  intro l
  induction l with
  | nil => intro st _ h; simp at h
  | cons g rest ih =>
    intro st hnd hl
    simp only [processOptFilesLoop, processOptFilesStep]
    by_cases hgf : g = f
    · subst hgf
      simp only [hf, if_true]
      constructor
      · exact processOptFilesLoop_done_mono uploadOk g rest _ (by simp [moveOptFile])
      · apply processOptFilesLoop_in_not_mem
        simp only [moveOptFile]
        by_cases hin : g ∈ st.inFolder
        · exact hnd.not_mem_erase
        · exact fun hc => hin (List.mem_of_mem_erase hc)
    · have hl2 : f ∈ rest := by
        rcases List.mem_cons.mp hl with h | h
        · exact absurd h.symm hgf
        · exact h
      by_cases hg : uploadOk g = true
      · simp only [hg, if_true]
        exact ih _ (by simp [moveOptFile]; exact hnd.erase g) hl2
      · simp only [hg, if_false]
        exact ih _ hnd hl2

/-- C8 (amended): on one parameter-optimization watcher tick, a `.opt`
file whose upload succeeds is moved from `opt/in` to `opt/done`, and a
file whose upload fails remains in `opt/in` for the next tick —
the tick never moves anything into `opt/error` (only the daily-summary
path uses that folder). -/
theorem processOptFiles_state (uploadOk : String → Bool) (st : OptFolders)
    (f : String) (hnd : st.inFolder.Nodup) (hf : f ∈ st.inFolder)
    (hext : filepathExt f = ".opt") :
    (processOptFiles uploadOk st).errFolder = st.errFolder ∧
    (uploadOk f = true →
      f ∈ (processOptFiles uploadOk st).doneFolder ∧
      f ∉ (processOptFiles uploadOk st).inFolder) ∧
    (uploadOk f = false →
      f ∈ (processOptFiles uploadOk st).inFolder) := by
  refine ⟨processOptFilesLoop_err uploadOk _ _, ?_, ?_⟩
  · intro hok
    have hmem : f ∈ getOptFiles st :=
      List.mem_filter.mpr ⟨hf, by simp [hext]⟩
    exact processOptFilesLoop_success uploadOk f hok (getOptFiles st) st hnd hmem
  · intro hfail
    exact processOptFilesLoop_failed_stays uploadOk f hfail (getOptFiles st) st hf

/-- C8 counterexample: with a single `.opt` file whose upload fails,
the file is still in `opt/in` after the tick and `opt/error` stays
empty — the claim's move-to-error behaviour does not happen. -/
theorem processOptFiles_failed_counterexample :
    ("j1_@ES_60_OPT_Results.opt" : String) ∈
      (processOptFiles (fun _ => false)
        ⟨["j1_@ES_60_OPT_Results.opt"], [], []⟩).inFolder ∧
    (processOptFiles (fun _ => false)
      ⟨["j1_@ES_60_OPT_Results.opt"], [], []⟩).errFolder = [] ∧
    ¬ (("j1_@ES_60_OPT_Results.opt" : String) ∈
        (processOptFiles (fun _ => false)
          ⟨["j1_@ES_60_OPT_Results.opt"], [], []⟩).errFolder ∧
       ("j1_@ES_60_OPT_Results.opt" : String) ∉
        (processOptFiles (fun _ => false)
          ⟨["j1_@ES_60_OPT_Results.opt"], [], []⟩).inFolder) := by decide

/-- C8 witness: the amended watcher-tick theorem applied to a
one-file `opt/in` folder whose upload succeeds. -/
theorem processOptFiles_state_witness :
    ((["j2_@ES_60_OPT_Results.opt"] : List String).Nodup ∧
     ("j2_@ES_60_OPT_Results.opt" : String) ∈ ["j2_@ES_60_OPT_Results.opt"] ∧
     filepathExt "j2_@ES_60_OPT_Results.opt" = ".opt") ∧
    (processOptFiles (fun _ => true)
      ⟨["j2_@ES_60_OPT_Results.opt"], [], []⟩).errFolder = [] ∧
    ((fun _ => true : String → Bool) "j2_@ES_60_OPT_Results.opt" = true →
      ("j2_@ES_60_OPT_Results.opt" : String) ∈
        (processOptFiles (fun _ => true)
          ⟨["j2_@ES_60_OPT_Results.opt"], [], []⟩).doneFolder ∧
      ("j2_@ES_60_OPT_Results.opt" : String) ∉
        (processOptFiles (fun _ => true)
          ⟨["j2_@ES_60_OPT_Results.opt"], [], []⟩).inFolder) ∧
    ((fun _ => true : String → Bool) "j2_@ES_60_OPT_Results.opt" = false →
      ("j2_@ES_60_OPT_Results.opt" : String) ∈
        (processOptFiles (fun _ => true)
          ⟨["j2_@ES_60_OPT_Results.opt"], [], []⟩).inFolder) :=
  ⟨⟨by decide, by decide, by decide⟩,
   processOptFiles_state (fun _ => true) ⟨["j2_@ES_60_OPT_Results.opt"], [], []⟩
     "j2_@ES_60_OPT_Results.opt" (by decide) (by decide) (by decide)⟩

/-- The task type `checkAndTriggerCombinedWFO` substitutes when the
cloud job record cannot be fetched, intending the parser to decide
from filename and file content. -/
def unknownTaskTypeFallback : String := "UNKNOWN"

/-- C9: when the cloud job record is missing, `checkAndTriggerCombinedWFO`
passes the fallback task type UNKNOWN into the OPT-table parser, but
the parser's task-type gate rejects anything that is not literally WFO
or WFM before even looking at the table, so a well-formed table with
`run` and `parameters_json` columns and a valid row is short-circuited
to "not walk-forward" (the same table passes with a known WFO task
type) — the announced filename-and-content fallback never runs. -/
theorem parseCSVContent_unknown_short_circuit :
    parseCSVContent [["run", "parameters_json"], ["1", "p1"]]
      unknownTaskTypeFallback = ([], false) ∧
    (parseCSVContent [["run", "parameters_json"], ["1", "p1"]] "WFO").2 = true ∧
    (parseCSVContent [["run", "parameters_json"], ["1", "p1"]] "WFO").1 =
      [⟨1, "p1", "", "", "", ""⟩] := by decide

/-- A default, empty optimization row (used only as a `getD` fallback). -/
def dfltOpt : OPTResult := ⟨0, "", "", "", "", ""⟩

/-- Appending one element does not change earlier positions. -/
theorem getD_snoc_lt {α : Type} (l : List α) (x d : α) (i : Nat) (h : i < l.length) :
    (l ++ [x]).getD i d = l.getD i d := by
  induction l generalizing i with
  | nil => simp at h
  | cons a rest ih =>
    cases i with
    | zero => rfl
    | succ i0 =>
      simp only [List.length_cons] at h
      simpa using ih i0 (by omega)

/-- The appended element sits at the old length. -/
theorem getD_snoc_self {α : Type} (l : List α) (x d : α) :
    (l ++ [x]).getD l.length d = x := by
  induction l with
  | nil => rfl
  | cons a rest ih => simp [ih]

theorem calculateWFORetestDateRanges_length :
    ∀ (rows : List OPTResult) (ranges : List WFORetestDateRange),
      calculateWFORetestDateRanges rows = some ranges →
      ranges.length = rows.length := by
  intro rows
  induction rows with
  | nil =>
    intro ranges h
    simp only [calculateWFORetestDateRanges, Option.some_inj] at h
    simp [← h]
  | cons row rest ih =>
    intro ranges h
    by_cases hos : row.osStartDate ≠ "" ∧ row.osEndDate ≠ ""
    · simp only [calculateWFORetestDateRanges, hos, if_true, and_self, ne_eq,
        not_false_eq_true, Option.pure_def, Option.bind_eq_bind, Option.bind_eq_some] at h
      rcases h with ⟨buf, hbuf, osbuf, hosbuf, rng, hrng, l2, hl2, heq⟩
      rw [← Option.some_inj.mp heq]
      simp [ih l2 hl2]
    · simp only [calculateWFORetestDateRanges, hos, if_false, Option.pure_def,
        Option.bind_eq_bind, Option.bind_eq_some] at h
      rcases h with ⟨buf, hbuf, rng, hrng, l2, hl2, heq⟩
      rw [← Option.some_inj.mp heq]
      simp [ih l2 hl2]

theorem createWFORetestJobElement_dates
    (jsonParse : String → Option (List (String × String)))
    (tmpl : JobDoc) (row : OPTResult) (fname : String) (j : JobDoc)
    (h : createWFORetestJobElement jsonParse tmpl row fname = some j) :
    findTagRaw j.tags "startDate" = findTagRaw tmpl.tags "startDate" ∧
    findTagRaw j.tags "endDate" = findTagRaw tmpl.tags "endDate" ∧
    findTagRaw j.tags "run" = findTagRaw tmpl.tags "run" := by
  simp only [createWFORetestJobElement, Option.pure_def, Option.bind_eq_bind,
    Option.bind_eq_some] at h
  rcases h with ⟨vals, hvals, heq⟩
  have hj := Option.some_inj.mp heq
  have htags : j.tags =
      replaceTags (replaceTags tmpl.tags "task_type" "WFO_RETEST") "filename" fname := by
    rw [← hj]
    rfl
  rw [htags]
  refine ⟨?_, ?_, ?_⟩ <;>
    rw [findTagRaw_replaceTags_ne _ _ _ _ (by simp),
      findTagRaw_replaceTags_ne _ _ _ _ (by simp)]

theorem buildWFORetestElements_spec
    (jsonParse : String → Option (List (String × String)))
    (origJobs : List JobDoc) (rows : List OPTResult) (fname : String) :
    ∀ (n : Nat) (l : List JobDoc),
      buildWFORetestElements jsonParse origJobs rows fname n = some l →
      l.length = n ∧
      ∀ i : Nat, i < n →
        ∃ j, createWFORetestJobElement jsonParse (origJobs.getD i dfltJob)
            (rows.getD i ⟨0, "", "", "", "", ""⟩) fname = some j ∧
          l.getD i dfltJob = j := by
  intro n
  induction n with
  | zero =>
    intro l h
    simp only [buildWFORetestElements, Option.some_inj] at h
    exact ⟨by simp [← h], fun i hi => absurd hi (by omega)⟩
  | succ n0 ih =>
    intro l h
    simp only [buildWFORetestElements, Option.pure_def, Option.bind_eq_bind,
      Option.bind_eq_some] at h
    rcases h with ⟨rest, hrest, jobXML, hjob, heq⟩
    have hl : l = rest ++ [jobXML] := (Option.some_inj.mp heq).symm
    rcases ih rest hrest with ⟨hlen, helts⟩
    constructor
    · simp [hl, hlen]
    · intro i hi
      by_cases hin : i < n0
      · rcases helts i hin with ⟨j, hj, hgd⟩
        exact ⟨j, hj, by rw [hl, getD_snoc_lt _ _ _ _ (by omega), hgd]⟩
      · have hieq : i = n0 := by omega
        subst hieq
        refine ⟨jobXML, hjob, ?_⟩
        rw [hl, ← hlen, getD_snoc_self]

/-- C5 (amended): the second-pass descriptor built from a
parameter-optimization result emits min(rowCount, template job count)
job elements — the full row count exactly when the original descriptor
has at least as many job elements — and every emitted job element
keeps the `startDate` and `endDate` of its template job element
unchanged; no run is re-spanned to its row's OS period. -/
theorem buildWFORetestXML_template_spans
    (jsonParse : String → Option (List (String × String)))
    (origJobs : List JobDoc) (rows : List OPTResult)
    (ranges : List WFORetestDateRange) (fname : String) (out : List JobDoc)
    (hr : calculateWFORetestDateRanges rows = some ranges)
    (hb : buildWFORetestXML jsonParse origJobs rows ranges fname = some out) :
    out.length = min rows.length origJobs.length ∧
    (rows.length ≤ origJobs.length → out.length = rows.length) ∧
    (∀ i : Nat, i < out.length →
      findTagRaw ((out.getD i dfltJob).tags) "startDate" =
        findTagRaw ((origJobs.getD i dfltJob).tags) "startDate" ∧
      findTagRaw ((out.getD i dfltJob).tags) "endDate" =
        findTagRaw ((origJobs.getD i dfltJob).tags) "endDate") := by
  have hrl := calculateWFORetestDateRanges_length rows ranges hr
  simp only [buildWFORetestXML] at hb
  by_cases h0 : origJobs.length = 0
  · rw [if_pos h0] at hb; exact absurd hb (by simp)
  · rw [if_neg h0] at hb
    by_cases hl0 : min rows.length (min origJobs.length ranges.length) = 0
    · rw [if_pos hl0] at hb; exact absurd hb (by simp)
    · rw [if_neg hl0] at hb
      rcases buildWFORetestElements_spec jsonParse origJobs rows fname
        (min rows.length (min origJobs.length ranges.length)) out hb with ⟨hlen, helts⟩
      have hmin : min rows.length (min origJobs.length ranges.length) =
          min rows.length origJobs.length := by omega
      refine ⟨by omega, fun hro => by omega, ?_⟩
      intro i hi
      rcases helts i (by omega) with ⟨j, hj, hgd⟩
      rw [hgd]
      exact ⟨(createWFORetestJobElement_dates jsonParse _ _ fname j hj).1,
        (createWFORetestJobElement_dates jsonParse _ _ fname j hj).2.1⟩

/-- Two-run original WFO descriptor used by the second-pass
counterexample and witness; each run's template spans IS start to OS
end, as the first-pass expansion produces. -/
def retestJobs : List JobDoc :=
  [⟨[("task_type", "WFO"), ("filename", "f.job"), ("run", "1"),
     ("startDate", "2020-01-01"), ("endDate", "2020-01-15")],
    [⟨"a", [("value", "5"), ("param_type", "OptRange"), ("optimizable_ind", "true")]⟩]⟩,
   ⟨[("task_type", "WFO"), ("filename", "f.job"), ("run", "2"),
     ("startDate", "2020-01-08"), ("endDate", "2020-01-23")],
    [⟨"a", [("value", "5"), ("param_type", "OptRange"), ("optimizable_ind", "true")]⟩]⟩]

/-- Two optimization rows matching `retestJobs`, with empty JSON
parameter objects. -/
def retestRows : List OPTResult :=
  [⟨1, "\x7b\x7d", "2020-01-01", "2020-01-08", "2020-01-09", "2020-01-15"⟩,
   ⟨2, "\x7b\x7d", "2020-01-08", "2020-01-15", "2020-01-16", "2020-01-23"⟩]

/-- The retest date ranges the client computes for `retestRows`. -/
def retestRangesW : List WFORetestDateRange :=
  [⟨"2020-01-01", "2020-01-08", "2020-01-09", "2020-01-15",
    "2019-12-31", "2020-01-09", "2020-01-08", "2020-01-16", 1, 1⟩,
   ⟨"2020-01-08", "2020-01-15", "2020-01-16", "2020-01-23",
    "2020-01-07", "2020-01-16", "2020-01-15", "2020-01-24", 1, 1⟩]

/-- The second-pass descriptor the client builds from `retestJobs` and
`retestRows`. -/
def retestOutW : List JobDoc :=
  [⟨[("task_type", "WFO_RETEST"), ("filename", "x_WFO_RETEST_RUN-2_OS-50.job"),
     ("run", "1"), ("startDate", "2020-01-01"), ("endDate", "2020-01-15")],
    [⟨"a", [("value", "5"), ("param_type", "Fixed"), ("optimizable_ind", "false")]⟩]⟩,
   ⟨[("task_type", "WFO_RETEST"), ("filename", "x_WFO_RETEST_RUN-2_OS-50.job"),
     ("run", "2"), ("startDate", "2020-01-08"), ("endDate", "2020-01-23")],
    [⟨"a", [("value", "5"), ("param_type", "Fixed"), ("optimizable_ind", "false")]⟩]⟩]

/-- C5 counterexample: in the second-pass descriptor built for the
two-run input, run 2's job element spans 2020-01-08 to 2020-01-23 (its
template's IS start through OS end) instead of its row's OS period
2020-01-16 to 2020-01-23, so the claim that runs k ≥ 2 span the OS
period only is false on the generator actually invoked. -/
theorem buildWFORetestXML_os_span_counterexample :
    calculateWFORetestDateRanges retestRows = some retestRangesW ∧
    buildWFORetestXML jsonEmptyObjOnly retestJobs retestRows retestRangesW
      "x_WFO_RETEST_RUN-2_OS-50.job" = some retestOutW ∧
    findTagRaw ((retestOutW.getD 1 dfltJob).tags) "startDate" = some "2020-01-08" ∧
    findTagRaw ((retestOutW.getD 1 dfltJob).tags) "endDate" = some "2020-01-23" ∧
    (retestRows.getD 1 dfltOpt).osStartDate = "2020-01-16" ∧
    (retestRows.getD 1 dfltOpt).osEndDate = "2020-01-23" ∧
    ¬ (findTagRaw ((retestOutW.getD 1 dfltJob).tags) "startDate" =
        some (retestRows.getD 1 dfltOpt).osStartDate) := by decide

/-- C5 witness: the amended template-span theorem applied to the
concrete two-run second pass, with the per-element conclusion
instantiated at run 2. -/
theorem buildWFORetestXML_template_spans_witness :
    (calculateWFORetestDateRanges retestRows = some retestRangesW ∧
     buildWFORetestXML jsonEmptyObjOnly retestJobs retestRows retestRangesW
       "x_WFO_RETEST_RUN-2_OS-50.job" = some retestOutW) ∧
    retestOutW.length = min retestRows.length retestJobs.length ∧
    (retestRows.length ≤ retestJobs.length → retestOutW.length = retestRows.length) ∧
    (findTagRaw ((retestOutW.getD 1 dfltJob).tags) "startDate" =
       findTagRaw ((retestJobs.getD 1 dfltJob).tags) "startDate" ∧
     findTagRaw ((retestOutW.getD 1 dfltJob).tags) "endDate" =
       findTagRaw ((retestJobs.getD 1 dfltJob).tags) "endDate") := by
  have h := buildWFORetestXML_template_spans jsonEmptyObjOnly retestJobs retestRows
    retestRangesW "x_WFO_RETEST_RUN-2_OS-50.job" retestOutW (by decide) (by decide)
  exact ⟨⟨by decide, by decide⟩, h.1, h.2.1, h.2.2 1 (by decide)⟩
